import Mathlib

/-!
Verification of the classification and quantity aggregation engine of the
BIM viewer repository.  JavaScript strings are embedded as `List Char`,
JS `Map`s and plain objects as insertion-ordered association lists, and
JS numbers as exact rationals.  All definitions are translated from
`src/demo/estimate.js` and
`src/archived-progress-viewers/06-BIM-Viewer-Quantities/uniformat.js`.
-/

/-- JavaScript strings are modelled as lists of characters. -/
abbrev JStr := List Char

/-- Shorthand turning a Lean string literal into the `JStr` embedding. -/
def js (s : String) : JStr := s.toList

/-- Lower-case a JS string (`String.prototype.toLowerCase`, ASCII part). -/
def toLowerList (s : JStr) : JStr := s.map Char.toLower

/-- Substring containment test (`String.prototype.includes`). -/
def strContains (hay pat : JStr) : Bool :=
  if pat.isPrefixOf hay then true
  else
    match hay with
    | [] => false
    | _ :: t => strContains t pat

/-- Prefix test (`String.prototype.startsWith`). -/
def strStartsWith (hay pat : JStr) : Bool := pat.isPrefixOf hay

/-- A scalar value in an element property bag: string, number or boolean. -/
inductive JsVal where
  | str (s : JStr)
  | num (q : ℚ)
  | boolean (b : Bool)
deriving DecidableEq

/-- Lookup in an insertion-ordered association list (`Map.prototype.get`,
also property access on a JS object used as a dictionary). -/
def mget? {V : Type} (k : JStr) (m : List (JStr × V)) : Option V :=
  (m.find? (fun p => p.1 == k)).map (fun p => p.2)

/-- Update-or-append for an association list (`Map.prototype.set`; JS keeps
the original insertion position when the key already exists, and appends
new keys at the end). -/
def mset {V : Type} (k : JStr) (v : V) : List (JStr × V) → List (JStr × V)
  | [] => [(k, v)]
  | (k', v') :: t => if k' == k then (k', v) :: t else (k', v') :: mset k v t

/-- Deletion from an association list (`Map.prototype.delete`). -/
def mdel {V : Type} (k : JStr) : List (JStr × V) → List (JStr × V)
  | [] => []
  | (k', v') :: t => if k' == k then t else (k', v') :: mdel k t

/-- Ensure-then-modify update used for the JS object trees built by the
aggregation code (`if (!tree[k]) tree[k] = init; f(tree[k])`). -/
def upsert {V : Type} (k : JStr) (d : V) (f : V → V) :
    List (JStr × V) → List (JStr × V)
  | [] => [(k, f d)]
  | (k', v) :: t => if k' == k then (k', f v) :: t else (k', v) :: upsert k d f t

/-- JS truthiness of an object-lookup result (`OBJ[key]` used as a boolean:
`undefined` and the empty string are falsy). -/
def lookupTruthy (m : List (JStr × JStr)) (k : JStr) : Bool :=
  match mget? k m with
  | some v => v != []
  | none => false

/-- One element record of the viewer's element data store
(`elementDataMap` entries: ifcType, name, storey, flat property bag). -/
structure ElemData where
  ifcType : JStr
  name : JStr
  storey : JStr
  props : List (JStr × JsVal)
deriving DecidableEq

-- ======================== estimate.js : quantity detection ========================

/-- Unit conversion factor `M2_TO_SF` from `estimate.js`. -/
def M2_TO_SF : ℚ := 10.7639

/-- Unit conversion factor `M_TO_LF` from `estimate.js`. -/
def M_TO_LF : ℚ := 3.28084

/-- Unit conversion factor `M3_TO_CY` from `estimate.js`. -/
def M3_TO_CY : ℚ := 1.30795

/-- The `QTO_SET_NAMES` quantity-container name list from `estimate.js`. -/
def QTO_SET_NAMES : List JStr :=
  [js "basequantities", js "qto_", js "dimensions", js "quantities",
   js "elementquantity", js "analytical properties", js "pset_revit_dimensions"]

/-- The `QUANTITY_NAME_KEYWORDS` list from `estimate.js`. -/
def QUANTITY_NAME_KEYWORDS : List JStr :=
  [js "area", js "surface", js "volume",
   js "length", js "height", js "width", js "depth", js "perimeter",
   js "thickness", js "count"]

/-- Split a list at every occurrence of a separator character
(`String.prototype.split` with a one-character separator; the result is
always non-empty and its pieces never contain the separator). -/
def splitOnChar (c : Char) : JStr → List JStr
  | [] => [[]]
  | x :: xs =>
    if x = c then [] :: splitOnChar c xs
    else
      match splitOnChar c xs with
      | [] => [[x]]
      | y :: ys => (x :: y) :: ys

/-- A quantity category of `estimate.js`. -/
inductive QCat where
  | area | volume | length | count
deriving DecidableEq

/-- `classifyQuantityKey` from `estimate.js`. -/
def classifyQuantityKey (propKey : JStr) : Option QCat :=
  let lower := toLowerList propKey
  let parts := splitOnChar '.' lower
  let setName := parts.headD []
  let name := (parts.getLast?).getD []
  let isKnownSet := QTO_SET_NAMES.any (fun p => strStartsWith setName p)
  let isDimensionName := QUANTITY_NAME_KEYWORDS.any (fun k => strContains name k)
  if !isKnownSet && !isDimensionName then none
  else if strContains name (js "area") || strContains name (js "surface") then some .area
  else if strContains name (js "volume") then some .volume
  else if strContains name (js "length") || strContains name (js "height") ||
          strContains name (js "width") || strContains name (js "depth") ||
          strContains name (js "perimeter") || strContains name (js "thickness") then
    some .length
  else if strContains name (js "count") then some .count
  else none

/-- Result record of `extractQuantities`. -/
structure Quantities where
  area : ℚ
  volume : ℚ
  length : ℚ
  count : ℚ
deriving DecidableEq

/-- Candidate lists per category built by the loop in `extractQuantities`;
each entry is the numeric value together with its `isGross` flag. -/
structure Cands where
  area : List (ℚ × Bool)
  volume : List (ℚ × Bool)
  length : List (ℚ × Bool)
  count : List (ℚ × Bool)

/-- Push a candidate onto the list of its category (`candidates[cat].push`). -/
def Cands.push (c : Cands) (cat : QCat) (e : ℚ × Bool) : Cands :=
  match cat with
  | .area => { c with area := c.area ++ [e] }
  | .volume => { c with volume := c.volume ++ [e] }
  | .length => { c with length := c.length ++ [e] }
  | .count => { c with count := c.count ++ [e] }

/-- `Math.max(...)` over a candidate value list (only applied to non-empty
lists in the source; the empty case is unreachable there). -/
def jsMaxList : List ℚ → ℚ
  | [] => 0
  | x :: xs => xs.foldl max x

/-- Per-category selection step of `extractQuantities`: keep `0` when there
are no candidates, otherwise prefer the maximum of the `isGross`
candidates, otherwise the maximum of all candidates. -/
def pickVal (l : List (ℚ × Bool)) : ℚ :=
  if l = [] then 0
  else
    let gross := l.filter (fun v => v.2)
    if gross ≠ [] then jsMaxList (gross.map (fun v => v.1))
    else jsMaxList (l.map (fun v => v.1))

/-- The candidate-collection loop of `extractQuantities`: a pair is pushed
when its key classifies to a category, its value is a number, and the
value is positive; the `isGross` flag tests the whole lower-cased key. -/
def collectCands (props : List (JStr × JsVal)) : Cands :=
  props.foldl
    (fun c kv =>
      match classifyQuantityKey kv.1 with
      | some cat =>
        match kv.2 with
        | .num v =>
          if 0 < v then
            c.push cat (v, strContains (toLowerList kv.1) (js "gross"))
          else c
        | _ => c
      | none => c)
    ⟨[], [], [], []⟩

/-- `extractQuantities` from `estimate.js`. -/
def extractQuantities (props : List (JStr × JsVal)) : Quantities :=
  let c := collectCands props
  { area := pickVal c.area
    volume := pickVal c.volume
    length := pickVal c.length
    count := pickVal c.count }

-- ======================== estimate.js : aggregation ========================

/-- One aggregate node (`emptyAgg()` shape): EA count, converted SF/LF/CY
columns and the member-key list. -/
structure Agg where
  ea : ℕ
  sf : ℚ
  lf : ℚ
  cy : ℚ
  elements : List JStr
deriving DecidableEq

/-- `emptyAgg` from `estimate.js`. -/
def emptyAgg : Agg := ⟨0, 0, 0, 0, []⟩

/-- `addToAgg` from `estimate.js`. -/
def addToAgg (agg : Agg) (q : Quantities) (key : JStr) : Agg :=
  { ea := agg.ea + 1
    sf := agg.sf + q.area * M2_TO_SF
    lf := agg.lf + q.length * M_TO_LF
    cy := agg.cy + q.volume * M3_TO_CY
    elements := agg.elements ++ [key] }

/-- JS `a || b` on strings (the empty string is falsy). -/
def jsOrStr (a b : JStr) : JStr := if a = [] then b else a

/-- Storey node of the spatial aggregation tree
(`{ agg: emptyAgg(), types: {} }`). -/
structure SNode where
  agg : Agg
  types : List (JStr × Agg)
deriving DecidableEq

/-- Result of `aggregateSpatial`. -/
structure SpatialResult where
  tree : List (JStr × SNode)
  totals : Agg
deriving DecidableEq

/-- Loop body of `aggregateSpatial` for one element. -/
def stepSpatial (st : List (JStr × SNode) × Agg) (e : JStr × ElemData) :
    List (JStr × SNode) × Agg :=
  let q := extractQuantities e.2.props
  let storey := jsOrStr e.2.storey (js "Unassigned")
  let ifcType := jsOrStr e.2.ifcType (js "UNKNOWN")
  (upsert storey ⟨emptyAgg, []⟩
      (fun n =>
        { agg := addToAgg n.agg q e.1
          types := upsert ifcType emptyAgg (fun a => addToAgg a q e.1) n.types })
      st.1,
   addToAgg st.2 q e.1)

/-- `aggregateSpatial` from `estimate.js` (the element data map is passed
in place of the `getViewerState()` read). -/
def aggregateSpatial (elems : List (JStr × ElemData)) : SpatialResult :=
  let st := elems.foldl stepSpatial ([], emptyAgg)
  ⟨st.1, st.2⟩

/-- One classification record (`{ code, source, confidence }`). -/
structure ClsRec where
  code : Option JStr
  source : JStr
  confidence : ℚ
deriving DecidableEq

/-- Truthiness test `!cls || !cls.code` of `aggregateUniformat`, returning
the level-3 code when it is present and truthy. -/
def clsCodeOf (r : Option ClsRec) : Option JStr :=
  match r with
  | none => none
  | some rec' =>
    match rec'.code with
    | none => none
    | some c => if c = [] then none else some c

/-- Level-2 node of the UniFormat aggregation tree. -/
structure UAggL2 where
  agg : Agg
  children : List (JStr × Agg)
deriving DecidableEq

/-- Level-1 node of the UniFormat aggregation tree. -/
structure UAggL1 where
  agg : Agg
  children : List (JStr × UAggL2)
deriving DecidableEq

/-- Result of `aggregateUniformat`. -/
structure UniformatResult where
  tree : List (JStr × UAggL1)
  totals : Agg
  unclassified : Agg
deriving DecidableEq

/-- Loop body of `aggregateUniformat` for one element. -/
def stepUniformat (cls : List (JStr × ClsRec)) (st : UniformatResult)
    (e : JStr × ElemData) : UniformatResult :=
  let q := extractQuantities e.2.props
  match clsCodeOf (mget? e.1 cls) with
  | none =>
    { st with
      unclassified := addToAgg st.unclassified q e.1
      totals := addToAgg st.totals q e.1 }
  | some l3 =>
    let l2 := l3.take 3
    let l1 := l3.take 1
    { tree :=
        upsert l1 ⟨emptyAgg, []⟩
          (fun n1 =>
            { agg := addToAgg n1.agg q e.1
              children :=
                upsert l2 ⟨emptyAgg, []⟩
                  (fun n2 =>
                    { agg := addToAgg n2.agg q e.1
                      children :=
                        upsert l3 emptyAgg (fun a => addToAgg a q e.1) n2.children })
                  n1.children })
          st.tree
      totals := addToAgg st.totals q e.1
      unclassified := st.unclassified }

/-- `aggregateUniformat` from `estimate.js`. -/
def aggregateUniformat (elems : List (JStr × ElemData))
    (cls : List (JStr × ClsRec)) : UniformatResult :=
  elems.foldl (stepUniformat cls) ⟨[], emptyAgg, emptyAgg⟩

-- ======================== uniformat.js : taxonomy ========================

/-- A level-3 entry of the UniFormat hierarchy (`{ label }`). -/
structure HierL3 where
  label : JStr

/-- A level-2 entry of the UniFormat hierarchy. -/
structure HierL2 where
  label : JStr
  children : List (JStr × HierL3)

/-- A level-1 entry of the UniFormat hierarchy. -/
structure HierL1 where
  label : JStr
  children : List (JStr × HierL2)

/-- The full `UNIFORMAT_HIERARCHY` constant from `uniformat.js`. -/
def UNIFORMAT_HIERARCHY : List (JStr × HierL1) :=
  [ (js "A", ⟨js "Substructure",
      [ (js "A10", ⟨js "Foundations",
          [ (js "A1010", ⟨js "Standard Foundations"⟩),
            (js "A1020", ⟨js "Special Foundations"⟩),
            (js "A1030", ⟨js "Slab on Grade"⟩) ]⟩),
        (js "A20", ⟨js "Basement Construction",
          [ (js "A2010", ⟨js "Basement Excavation"⟩),
            (js "A2020", ⟨js "Basement Walls"⟩) ]⟩) ]⟩),
    (js "B", ⟨js "Shell",
      [ (js "B10", ⟨js "Superstructure",
          [ (js "B1010", ⟨js "Floor Construction"⟩),
            (js "B1020", ⟨js "Roof Construction"⟩) ]⟩),
        (js "B20", ⟨js "Exterior Enclosure",
          [ (js "B2010", ⟨js "Exterior Walls"⟩),
            (js "B2020", ⟨js "Exterior Windows"⟩),
            (js "B2030", ⟨js "Exterior Doors"⟩) ]⟩),
        (js "B30", ⟨js "Roofing",
          [ (js "B3010", ⟨js "Roof Coverings"⟩),
            (js "B3020", ⟨js "Roof Openings"⟩) ]⟩) ]⟩),
    (js "C", ⟨js "Interiors",
      [ (js "C10", ⟨js "Interior Construction",
          [ (js "C1010", ⟨js "Partitions"⟩),
            (js "C1020", ⟨js "Interior Doors"⟩),
            (js "C1030", ⟨js "Fittings"⟩) ]⟩),
        (js "C20", ⟨js "Stairs",
          [ (js "C2010", ⟨js "Stair Construction"⟩),
            (js "C2020", ⟨js "Stair Finishes"⟩) ]⟩),
        (js "C30", ⟨js "Interior Finishes",
          [ (js "C3010", ⟨js "Wall Finishes"⟩),
            (js "C3020", ⟨js "Floor Finishes"⟩),
            (js "C3030", ⟨js "Ceiling Finishes"⟩) ]⟩) ]⟩),
    (js "D", ⟨js "Services",
      [ (js "D10", ⟨js "Conveying",
          [ (js "D1010", ⟨js "Elevators & Lifts"⟩),
            (js "D1020", ⟨js "Escalators & Moving Walks"⟩),
            (js "D1090", ⟨js "Other Conveying Systems"⟩) ]⟩),
        (js "D20", ⟨js "Plumbing",
          [ (js "D2010", ⟨js "Plumbing Fixtures"⟩),
            (js "D2020", ⟨js "Domestic Water Distribution"⟩),
            (js "D2030", ⟨js "Sanitary Waste"⟩),
            (js "D2040", ⟨js "Rain Water Drainage"⟩),
            (js "D2090", ⟨js "Other Plumbing Systems"⟩) ]⟩),
        (js "D30", ⟨js "HVAC",
          [ (js "D3010", ⟨js "Energy Supply"⟩),
            (js "D3020", ⟨js "Heat Generating Systems"⟩),
            (js "D3030", ⟨js "Cooling Generating Systems"⟩),
            (js "D3040", ⟨js "Distribution Systems"⟩),
            (js "D3050", ⟨js "Terminal & Package Units"⟩),
            (js "D3060", ⟨js "Controls & Instrumentation"⟩),
            (js "D3070", ⟨js "Systems Testing & Balancing"⟩),
            (js "D3090", ⟨js "Other HVAC Systems & Equipment"⟩) ]⟩),
        (js "D40", ⟨js "Fire Protection",
          [ (js "D4010", ⟨js "Sprinklers"⟩),
            (js "D4020", ⟨js "Standpipes"⟩),
            (js "D4030", ⟨js "Fire Protection Specialties"⟩),
            (js "D4090", ⟨js "Other Fire Protection Systems"⟩) ]⟩),
        (js "D50", ⟨js "Electrical",
          [ (js "D5010", ⟨js "Electrical Service & Distribution"⟩),
            (js "D5020", ⟨js "Lighting and Branch Wiring"⟩),
            (js "D5030", ⟨js "Communications & Security"⟩),
            (js "D5090", ⟨js "Other Electrical Systems"⟩) ]⟩) ]⟩),
    (js "E", ⟨js "Equipment & Furnishings",
      [ (js "E10", ⟨js "Equipment",
          [ (js "E1010", ⟨js "Commercial Equipment"⟩),
            (js "E1020", ⟨js "Institutional Equipment"⟩),
            (js "E1030", ⟨js "Vehicular Equipment"⟩),
            (js "E1090", ⟨js "Other Equipment"⟩) ]⟩),
        (js "E20", ⟨js "Furnishings",
          [ (js "E2010", ⟨js "Fixed Furnishings"⟩),
            (js "E2020", ⟨js "Movable Furnishings"⟩) ]⟩) ]⟩),
    (js "F", ⟨js "Special Construction & Demolition",
      [ (js "F10", ⟨js "Special Construction",
          [ (js "F1010", ⟨js "Special Structures"⟩),
            (js "F1020", ⟨js "Integrated Construction"⟩),
            (js "F1030", ⟨js "Special Construction Systems"⟩),
            (js "F1040", ⟨js "Special Facilities"⟩),
            (js "F1050", ⟨js "Special Controls & Instrumentation"⟩) ]⟩),
        (js "F20", ⟨js "Selective Building Demolition",
          [ (js "F2010", ⟨js "Building Elements Demolition"⟩),
            (js "F2020", ⟨js "Hazardous Components Abatement"⟩) ]⟩) ]⟩) ]

/-- The flat `L3_LABELS` code-to-label table built from the hierarchy in
`uniformat.js` (iteration over levels 1, 2 and 3 in declaration order). -/
def L3_LABELS : List (JStr × JStr) :=
  UNIFORMAT_HIERARCHY.flatMap
    (fun l1 => l1.2.children.flatMap
      (fun l2 => l2.2.children.map (fun l3 => (l3.1, l3.2.label))))

/-- Truthiness of `L3_LABELS[code]`: the code is a known leaf code (all
labels in the table are non-empty strings). -/
def isKnownL3 (c : JStr) : Bool := lookupTruthy L3_LABELS c

-- ======================== uniformat.js : type defaults ========================

/-- The `IFC_TYPE_DEFAULT_MAP` constant from `uniformat.js` (the proxy
entry is an explicit `null`). -/
def IFC_TYPE_DEFAULT_MAP : List (JStr × Option JStr) :=
  [ (js "IFCFOOTING", some (js "A1010")),
    (js "IFCPILE", some (js "A1020")),
    (js "IFCBEAM", some (js "B1010")),
    (js "IFCCOLUMN", some (js "B1010")),
    (js "IFCMEMBER", some (js "B1010")),
    (js "IFCPLATE", some (js "B1010")),
    (js "IFCSLAB", some (js "B1010")),
    (js "IFCELEMENTASSEMBLY", some (js "B1010")),
    (js "IFCWALL", some (js "B2010")),
    (js "IFCWALLSTANDARDCASE", some (js "B2010")),
    (js "IFCCURTAINWALL", some (js "B2010")),
    (js "IFCWINDOW", some (js "B2020")),
    (js "IFCDOOR", some (js "B2030")),
    (js "IFCRAILING", some (js "C1030")),
    (js "IFCSTAIR", some (js "C2010")),
    (js "IFCSTAIRFLIGHT", some (js "C2010")),
    (js "IFCRAMP", some (js "C2010")),
    (js "IFCRAMPFLIGHT", some (js "C2010")),
    (js "IFCBUILDINGELEMENTPROXY", none) ]

/-- `IFC_TYPE_DEFAULT_MAP[t] || null` — a missing entry, an explicit
`null` entry and an empty-string entry all collapse to `null`. -/
def typeDefaultGet (t : JStr) : Option JStr :=
  match mget? t IFC_TYPE_DEFAULT_MAP with
  | some (some c) => if c = [] then none else some c
  | some none => none
  | none => none

-- ======================== uniformat.js : classification cascade ========================

/-- The `classificationKeys` vocabulary of `detectFromProperties`. -/
def classificationKeys : List JStr :=
  [js "uniformat", js "uniformatii", js "classification", js "assembly code",
   js "assemblycode", js "assembly_code", js "omniclass", js "uniclass",
   js "classificationcode", js "classification code"]

/-- The regex `^[A-F]\d{4}$` of `detectFromProperties`: one letter A–F
followed by exactly four digits. -/
def ufPatternTest (s : JStr) : Bool :=
  match s with
  | [c0, c1, c2, c3, c4] =>
    ('A' ≤ c0 && c0 ≤ 'F') && c1.isDigit && c2.isDigit && c3.isDigit && c4.isDigit
  | _ => false

/-- `String.prototype.trim` (whitespace from both ends). -/
def jsTrim (s : JStr) : JStr :=
  ((s.dropWhile Char.isWhitespace).reverse.dropWhile Char.isWhitespace).reverse

/-- `replace(/[.\-\s]/g, '')`: strip periods, hyphens and whitespace. -/
def stripSeps (s : JStr) : JStr :=
  s.filter (fun c => !(c = '.' || c = '-' || c.isWhitespace))

/-- `detectFromProperties` from `uniformat.js`: scan the property bag in
order for classification-indicator keys whose string value cleans to a
pattern-valid, known leaf code. -/
def detectFromProperties (data : ElemData) : Option JStr :=
  data.props.findSome? (fun kv =>
    let keyLower := toLowerList kv.1
    let isClassProp := classificationKeys.any (fun ck => strContains keyLower ck)
    match kv.2 with
    | .str sv =>
      if isClassProp then
        let cleaned := stripSeps (jsTrim sv)
        if ufPatternTest cleaned && lookupTruthy L3_LABELS cleaned then some cleaned
        else
          let parts := stripSeps sv
          if ufPatternTest parts && lookupTruthy L3_LABELS parts then some parts
          else none
      else none
    | _ => none)

/-- Truthy-literal comparison `v === true || v === 'True' || v === '.T.'
|| v === 1` in `contextAwareMap`. -/
def jsEqTrueLit (v : JsVal) : Bool :=
  v == .boolean true || v == .str (js "True") || v == .str (js ".T.") || v == .num 1

/-- Falsy-literal comparison `v === false || v === 'False' || v === '.F.'
|| v === 0` in `contextAwareMap`. -/
def jsEqFalseLit (v : JsVal) : Bool :=
  v == .boolean false || v == .str (js "False") || v == .str (js ".F.") || v == .num 0

/-- The `isExternal` detection loop of `contextAwareMap` (the last
matching property wins; unrecognised encodings leave the value as-is). -/
def detectIsExternal (props : List (JStr × JsVal)) : Option Bool :=
  props.foldl
    (fun acc kv =>
      let kl := toLowerList kv.1
      if strContains kl (js "isexternal") || strContains kl (js "is_external") then
        if jsEqTrueLit kv.2 then some true
        else if jsEqFalseLit kv.2 then some false
        else acc
      else acc)
    none

/-- `contextAwareMap` from `uniformat.js`. -/
def contextAwareMap (data : ElemData) : Option JStr :=
  let type := data.ifcType
  let name := toLowerList data.name
  let storey := toLowerList data.storey
  let isExternal := detectIsExternal data.props
  if type == js "IFCWALL" || type == js "IFCWALLSTANDARDCASE" then
    if isExternal == some false then some (js "C1010")
    else if strContains name (js "partition") || strContains name (js "interior") then
      some (js "C1010")
    else if strContains storey (js "basement") || strContains storey (js "b1") ||
            strContains storey (js "b2") || strContains storey (js "underground") ||
            strContains storey (js "sub") then
      some (js "A2020")
    else some (js "B2010")
  else if type == js "IFCDOOR" then
    if isExternal == some false then some (js "C1020")
    else if strContains name (js "interior") || strContains name (js "int.") then
      some (js "C1020")
    else some (js "B2030")
  else if type == js "IFCWINDOW" then some (js "B2020")
  else if type == js "IFCSLAB" then
    if strContains name (js "roof") || strContains storey (js "roof") then
      some (js "B1020")
    else if strContains name (js "grade") || strContains name (js "sog") ||
            strContains name (js "on grade") then
      some (js "A1030")
    else if strContains storey (js "basement") || strContains storey (js "foundation") then
      some (js "A1030")
    else some (js "B1010")
  else if type == js "IFCFOOTING" then
    if strContains name (js "pile") || strContains name (js "caisson") ||
       strContains name (js "drilled") then
      some (js "A1020")
    else some (js "A1010")
  else none

/-- Loop body of `classifyAllElements` for one element: first a manual
override, then property detection, then context heuristics, then the
type default, and finally the unclassified record. -/
def classifyElement (overrides : List (JStr × JStr)) (key : JStr)
    (data : ElemData) : ClsRec :=
  match mget? key overrides with
  | some c => ⟨some c, js "manual", 1⟩
  | none =>
    match detectFromProperties data with
    | some c => ⟨some c, js "ifc-property", 1⟩
    | none =>
      match contextAwareMap data with
      | some c => ⟨some c, js "auto-mapped", 7/10⟩
      | none =>
        match typeDefaultGet data.ifcType with
        | some c => ⟨some c, js "auto-mapped", 1/2⟩
        | none => ⟨none, js "none", 0⟩

/-- `classifyAllElements` from `uniformat.js`: clear the classification
map and rebuild it over all loaded elements. -/
def classifyAllElements (elems : List (JStr × ElemData))
    (overrides : List (JStr × JStr)) : List (JStr × ClsRec) :=
  elems.foldl (fun cls e => mset e.1 (classifyElement overrides e.1 e.2) cls) []

/-- The single-element re-derivation of the `l3Code === null` branch of
`setManualClassification` (passes 2–5 re-implemented inline there). -/
def reclassifyRecord (data : ElemData) : ClsRec :=
  match detectFromProperties data with
  | some c => ⟨some c, js "ifc-property", 1⟩
  | none =>
    match contextAwareMap data with
    | some c => ⟨some c, js "auto-mapped", 7/10⟩
    | none =>
      match typeDefaultGet data.ifcType with
      | some c => ⟨some c, js "auto-mapped", 1/2⟩
      | none => ⟨none, js "none", 0⟩

-- ======================== uniformat.js : engine state and overrides ========================

/-- The mutable state of the classification engine: the `classifications`
map and the `manualOverrides` map (both keyed by composite keys). -/
structure UfState where
  classifications : List (JStr × ClsRec)
  manualOverrides : List (JStr × JStr)
deriving DecidableEq

-- ======================== uniformat.js : stable keys ========================

/-- One entry of the loaded-models manifest (`models` of the viewer
state): session index and originating filename. -/
structure Model where
  idx : ℕ
  filename : JStr
deriving DecidableEq

/-- ASCII digit character for a value below ten (`0`–`9`). -/
def digitChar (d : ℕ) : Char := Char.ofNat (48 + d)

/-- Fuel-driven little-endian digit expansion of a natural number. -/
def natDigitsRevGo : ℕ → ℕ → List Char
  | 0, _ => []
  | fuel + 1, n =>
    if n < 10 then [digitChar n]
    else digitChar (n % 10) :: natDigitsRevGo fuel (n / 10)

/-- Decimal rendering of a natural number (the template-literal
stringification `${model.idx}` of a session index). -/
def natToStr (n : ℕ) : JStr := (natDigitsRevGo (n + 1) n).reverse

/-- Numeric value of a list of ASCII digit characters. -/
def digitsToNat (ds : JStr) : ℕ :=
  ds.foldl (fun a c => 10 * a + (c.toNat - 48)) 0

/-- `parseInt` as applied to the index half of a composite key: the value
of the leading digit run, or `NaN` (here `none`) when there is none. -/
def jsParseInt (s : JStr) : Option ℕ :=
  let ds := s.takeWhile Char.isDigit
  if ds = [] then none else some (digitsToNat ds)

/-- `toStableKey` from `uniformat.js`: split the composite key at `':'`,
resolve the session model index to its filename, and join. -/
def toStableKey (models : List Model) (compositeKey : JStr) : Option JStr :=
  let parts := splitOnChar ':' compositeKey
  let idxStr := parts.headD []
  let eidStr := (parts.get? 1).getD (js "undefined")
  match jsParseInt idxStr with
  | none => none
  | some modelIdx =>
    match models.find? (fun m => m.idx == modelIdx) with
    | none => none
    | some m => some (m.filename ++ ':' :: eidStr)

/-- Split a string at its last `':'` (the `lastIndexOf(':')` plus the two
`substring` calls of `fromStableKey`); `none` when there is no colon. -/
def splitAtLastColon : JStr → Option (JStr × JStr)
  | [] => none
  | x :: xs =>
    match splitAtLastColon xs with
    | some (a, b) => some (x :: a, b)
    | none => if x = ':' then some ([], xs) else none

/-- `fromStableKey` from `uniformat.js`: split the stable key at its last
colon, resolve the filename to the session model index, and join. -/
def fromStableKey (models : List Model) (stableKey : JStr) : Option JStr :=
  match splitAtLastColon stableKey with
  | none => none
  | some (filename, eid) =>
    match models.find? (fun m => m.filename == filename) with
    | none => none
    | some m => some (natToStr m.idx ++ ':' :: eid)

-- ======================== uniformat.js : persistence ========================

/-- The body of `saveOverrides`: the flat object written to storage,
holding one entry per in-memory override whose composite key resolves
to a stable key against the loaded models. -/
def saveOverridesStore (models : List Model)
    (overrides : List (JStr × JStr)) : List (JStr × JStr) :=
  overrides.foldl
    (fun data p =>
      match toStableKey models p.1 with
      | some sk => mset sk p.2 data
      | none => data)
    []

/-- The body of `loadOverrides`: merge every stored entry whose stable key
resolves against the loaded models and whose code is a known leaf code
into the in-memory override map. -/
def loadOverridesMap (models : List Model) (stored : List (JStr × JStr))
    (cur : List (JStr × JStr)) : List (JStr × JStr) :=
  stored.foldl
    (fun ov p =>
      match fromStableKey models p.1 with
      | some ck => if lookupTruthy L3_LABELS p.2 then mset ck p.2 ov else ov
      | none => ov)
    cur

/-- `setManualClassification` from `uniformat.js`.  Returns the updated
state together with the list of persistence writes performed (the
trailing `saveOverrides()` call always contributes exactly one). -/
def setManualClassification (models : List Model)
    (elems : List (JStr × ElemData)) (compositeKey : JStr)
    (l3Code : Option JStr) (st : UfState) :
    UfState × List (List (JStr × JStr)) :=
  let st' :=
    match l3Code with
    | some c =>
      if c ≠ [] && lookupTruthy L3_LABELS c then
        { manualOverrides := mset compositeKey c st.manualOverrides
          classifications :=
            mset compositeKey ⟨some c, js "manual", 1⟩ st.classifications }
      else st
    | none =>
      let ov := mdel compositeKey st.manualOverrides
      let cls :=
        match mget? compositeKey elems with
        | some data => mset compositeKey (reclassifyRecord data) st.classifications
        | none => st.classifications
      { manualOverrides := ov, classifications := cls }
  (st', [saveOverridesStore models st'.manualOverrides])

/-- `bulkAssignByType` from `uniformat.js`: apply the manual-override path
to every loaded element of the given IFC type, then save once. -/
def bulkAssignByType (models : List Model)
    (elems : List (JStr × ElemData)) (ifcType : JStr) (l3Code : JStr)
    (st : UfState) : UfState × List (List (JStr × JStr)) :=
  let st' :=
    elems.foldl
      (fun s e =>
        if e.2.ifcType == ifcType then
          if l3Code ≠ [] && lookupTruthy L3_LABELS l3Code then
            { manualOverrides := mset e.1 l3Code s.manualOverrides
              classifications :=
                mset e.1 ⟨some l3Code, js "manual", 1⟩ s.classifications }
          else s
        else s)
      st
  (st', [saveOverridesStore models st'.manualOverrides])

/-- The merge loop of `importOverridesFromFile` followed by the
`classifyAllElements()` rebuild it triggers. -/
def importOverrides (models : List Model)
    (elems : List (JStr × ElemData)) (data : List (JStr × JStr))
    (st : UfState) : UfState :=
  let ov :=
    data.foldl
      (fun ov p =>
        match fromStableKey models p.1 with
        | some ck => if lookupTruthy L3_LABELS p.2 then mset ck p.2 ov else ov
        | none => ov)
      st.manualOverrides
  { manualOverrides := ov, classifications := classifyAllElements elems ov }

-- ======================== association-list lemmas ========================

theorem mget?_nil {V : Type} (k : JStr) : mget? k ([] : List (JStr × V)) = none := rfl

theorem mget?_cons {V : Type} (k k' : JStr) (v : V) (t : List (JStr × V)) :
    mget? k ((k', v) :: t) = if k' = k then some v else mget? k t := by
  by_cases h : k' = k <;> simp [mget?, List.find?_cons, h]

theorem mget?_mset_self {V : Type} (k : JStr) (v : V) (m : List (JStr × V)) :
    mget? k (mset k v m) = some v := by
  induction m with
  | nil => simp [mset, mget?_cons]
  | cons p t ih =>
    obtain ⟨k', v'⟩ := p
    by_cases h : k' = k
    · simp [mset, h, mget?_cons]
    · simp [mset, h, mget?_cons, ih]

theorem mget?_mset_ne {V : Type} (j k : JStr) (v : V) (m : List (JStr × V))
    (h : j ≠ k) : mget? j (mset k v m) = mget? j m := by
  induction m with
  | nil =>
    have h' : k ≠ j := Ne.symm h
    simp [mset, mget?_cons, mget?_nil, h']
  | cons p t ih =>
    obtain ⟨k', v'⟩ := p
    by_cases hk : k' = k
    · subst hk
      have h' : k' ≠ j := Ne.symm h
      simp [mset, mget?_cons, h']
    · by_cases hj : k' = j
      · subst hj
        simp [mset, hk, mget?_cons]
      · simp [mset, hk, mget?_cons, hj, ih]

theorem mem_mset {V : Type} (p : JStr × V) (k : JStr) (v : V)
    (m : List (JStr × V)) (h : p ∈ mset k v m) : p = (k, v) ∨ p ∈ m := by
  induction m with
  | nil => simpa [mset] using h
  | cons q t ih =>
    obtain ⟨k', v'⟩ := q
    by_cases hk : k' = k
    · subst hk
      simp only [mset, beq_self_eq_true, if_true] at h
      rcases List.mem_cons.mp h with h1 | h1
      · exact Or.inl h1
      · exact Or.inr (List.mem_cons_of_mem _ h1)
    · simp only [mset, beq_iff_eq, if_neg hk] at h
      rcases List.mem_cons.mp h with h1 | h1
      · exact Or.inr (List.mem_cons.mpr (Or.inl h1))
      · rcases ih h1 with h2 | h2
        · exact Or.inl h2
        · exact Or.inr (List.mem_cons_of_mem _ h2)

theorem mem_mdel {V : Type} (p : JStr × V) (k : JStr) (m : List (JStr × V))
    (h : p ∈ mdel k m) : p ∈ m := by
  induction m with
  | nil => simp [mdel] at h
  | cons q t ih =>
    obtain ⟨k', v'⟩ := q
    by_cases hk : k' = k
    · simp only [mdel, beq_iff_eq, if_pos hk] at h
      exact List.mem_cons_of_mem _ h
    · simp only [mdel, beq_iff_eq, if_neg hk] at h
      rcases List.mem_cons.mp h with h1 | h1
      · exact List.mem_cons.mpr (Or.inl h1)
      · exact List.mem_cons_of_mem _ (ih h1)

theorem mget?_upsert_self {V : Type} (k : JStr) (d : V) (f : V → V)
    (l : List (JStr × V)) :
    mget? k (upsert k d f l) = some (f ((mget? k l).getD d)) := by
  induction l with
  | nil => simp [upsert, mget?_cons, mget?_nil]
  | cons p t ih =>
    obtain ⟨k', v'⟩ := p
    by_cases h : k' = k
    · simp [upsert, h, mget?_cons]
    · simp [upsert, h, mget?_cons, ih]

theorem mget?_upsert_ne {V : Type} (j k : JStr) (d : V) (f : V → V)
    (l : List (JStr × V)) (h : j ≠ k) :
    mget? j (upsert k d f l) = mget? j l := by
  induction l with
  | nil =>
    have h' : k ≠ j := Ne.symm h
    simp [upsert, mget?_cons, mget?_nil, h']
  | cons p t ih =>
    obtain ⟨k', v'⟩ := p
    by_cases hk : k' = k
    · subst hk
      have h' : k' ≠ j := Ne.symm h
      simp [upsert, mget?_cons, h']
    · by_cases hj : k' = j
      · subst hj
        simp [upsert, hk, mget?_cons]
      · simp [upsert, hk, mget?_cons, hj, ih]

/-- Adding one element through `upsert` raises any additive measure of the
mapped-and-summed tree by exactly the element's contribution. -/
theorem sum_map_upsert {V M : Type} [AddCommMonoid M] (g : V → M) (k : JStr)
    (d : V) (f : V → V) (δ : M) (hf : ∀ v, g (f v) = g v + δ)
    (hd : g (f d) = δ) (l : List (JStr × V)) :
    ((upsert k d f l).map (fun p => g p.2)).sum =
      ((l.map (fun p => g p.2)).sum) + δ := by
  induction l with
  | nil => simp [upsert, hd]
  | cons p t ih =>
    obtain ⟨k', v'⟩ := p
    by_cases h : k' = k
    · simp only [upsert, beq_iff_eq, if_pos h, List.map_cons, List.sum_cons, hf]
      abel
    · simp only [upsert, beq_iff_eq, if_neg h, List.map_cons, List.sum_cons, ih]
      abel

-- ======================== aggregate value projections ========================

/-- The four numeric columns of an aggregate, as a point of the additive
product monoid (EA count, SF, LF, CY). -/
abbrev Vals := ℕ × ℚ × ℚ × ℚ

/-- Numeric columns of an aggregate node. -/
def Agg.vals (a : Agg) : Vals := (a.ea, a.sf, a.lf, a.cy)

/-- The contribution one element with extracted quantities `q` makes to
every aggregate it is added to. -/
def qVals (q : Quantities) : Vals :=
  (1, q.area * M2_TO_SF, q.length * M_TO_LF, q.volume * M3_TO_CY)

theorem vals_addToAgg (a : Agg) (q : Quantities) (k : JStr) :
    (addToAgg a q k).vals = a.vals + qVals q := by
  simp [addToAgg, Agg.vals, qVals, Prod.ext_iff]

theorem vals_emptyAgg : emptyAgg.vals = 0 := rfl

theorem count_addToAgg (a : Agg) (q : Quantities) (k j : JStr) :
    (addToAgg a q k).elements.count j =
      a.elements.count j + (if j = k then 1 else 0) := by
  by_cases h : j = k <;>
    simp [addToAgg, List.count_append, List.count_singleton', h, beq_iff_eq]

-- ======================== spatial aggregation conservation ========================

/-- Total number of occurrences of a key across all leaf member lists of a
spatial tree (leaves are the per-type aggregates). -/
def spatialLeafCount (t : List (JStr × SNode)) (j : JStr) : ℕ :=
  (t.map (fun p => (p.2.types.map (fun q => q.2.elements.count j)).sum)).sum

/-- The invariant maintained by `aggregateSpatial` over the processed
prefix of the element list. -/
def InvSpatial (keys : List JStr) (st : List (JStr × SNode) × Agg) : Prop :=
  (∀ s n, mget? s st.1 = some n →
      n.agg.vals = (n.types.map (fun p => p.2.vals)).sum)
  ∧ st.2.vals = (st.1.map (fun p => p.2.agg.vals)).sum
  ∧ (∀ j, spatialLeafCount st.1 j = keys.count j)
  ∧ st.2.elements = keys

theorem invSpatial_init : InvSpatial [] ([], emptyAgg) := by
  refine ⟨?_, ?_, ?_, rfl⟩
  · intro s n h
    simp [mget?_nil] at h
  · simp [vals_emptyAgg]
  · intro j
    simp [spatialLeafCount]

theorem invSpatial_step (keys : List JStr) (st : List (JStr × SNode) × Agg)
    (e : JStr × ElemData) (h : InvSpatial keys st) :
    InvSpatial (keys ++ [e.1]) (stepSpatial st e) := by
  obtain ⟨h1, h2, h3, h4⟩ := h
  set q := extractQuantities e.2.props with hq
  set s0 := jsOrStr e.2.storey (js "Unassigned") with hs0
  set t0 := jsOrStr e.2.ifcType (js "UNKNOWN") with ht0
  have hfnode : ∀ n : SNode,
      (fun n : SNode =>
        { agg := addToAgg n.agg q e.1
          types := upsert t0 emptyAgg (fun a => addToAgg a q e.1) n.types } : SNode → SNode) n
        = { agg := addToAgg n.agg q e.1
            types := upsert t0 emptyAgg (fun a => addToAgg a q e.1) n.types } :=
    fun n => rfl
  refine ⟨?_, ?_, ?_, ?_⟩
  · -- per-storey conservation
    intro s n hget
    by_cases hs : s = s0
    · subst hs
      rw [show (stepSpatial st e).1 =
          upsert s0 ⟨emptyAgg, []⟩
            (fun n => { agg := addToAgg n.agg q e.1
                        types := upsert t0 emptyAgg (fun a => addToAgg a q e.1) n.types })
            st.1 from rfl] at hget
      rw [mget?_upsert_self] at hget
      cases hget
      cases hold : mget? s0 st.1 with
      | none =>
        simp only [hold, Option.getD_none]
        rw [vals_addToAgg]
        rw [sum_map_upsert (Agg.vals) t0 emptyAgg (fun a => addToAgg a q e.1) (qVals q)
          (fun v => vals_addToAgg v q e.1)
          (by rw [vals_addToAgg, vals_emptyAgg, zero_add])]
        simp [vals_emptyAgg]
      | some nold =>
        simp only [hold, Option.getD_some]
        rw [vals_addToAgg]
        rw [sum_map_upsert (Agg.vals) t0 emptyAgg (fun a => addToAgg a q e.1) (qVals q)
          (fun v => vals_addToAgg v q e.1)
          (by rw [vals_addToAgg, vals_emptyAgg, zero_add])]
        rw [h1 s0 nold hold]
    · rw [show (stepSpatial st e).1 =
          upsert s0 ⟨emptyAgg, []⟩
            (fun n => { agg := addToAgg n.agg q e.1
                        types := upsert t0 emptyAgg (fun a => addToAgg a q e.1) n.types })
            st.1 from rfl] at hget
      rw [mget?_upsert_ne _ _ _ _ _ hs] at hget
      exact h1 s n hget
  · -- totals conservation
    rw [show (stepSpatial st e).2 = addToAgg st.2 q e.1 from rfl, vals_addToAgg, h2]
    rw [show (stepSpatial st e).1 =
        upsert s0 ⟨emptyAgg, []⟩
          (fun n => { agg := addToAgg n.agg q e.1
                      types := upsert t0 emptyAgg (fun a => addToAgg a q e.1) n.types })
          st.1 from rfl]
    rw [sum_map_upsert (fun n : SNode => n.agg.vals) s0 ⟨emptyAgg, []⟩ _ (qVals q)
      (fun v => vals_addToAgg v.agg q e.1)
      (by simp only []; rw [vals_addToAgg, vals_emptyAgg, zero_add])]
  · -- leaf-count conservation
    intro j
    rw [show (stepSpatial st e).1 =
        upsert s0 ⟨emptyAgg, []⟩
          (fun n => { agg := addToAgg n.agg q e.1
                      types := upsert t0 emptyAgg (fun a => addToAgg a q e.1) n.types })
          st.1 from rfl]
    unfold spatialLeafCount
    rw [sum_map_upsert
      (fun n : SNode => (n.types.map (fun p => p.2.elements.count j)).sum)
      s0 ⟨emptyAgg, []⟩ _ (if j = e.1 then 1 else 0)
      (fun v => by
        simp only []
        rw [sum_map_upsert (fun a : Agg => a.elements.count j) t0 emptyAgg
          (fun a => addToAgg a q e.1) (if j = e.1 then 1 else 0)
          (fun a => count_addToAgg a q e.1 j)
          (by simp [count_addToAgg, emptyAgg])])
      (by
        simp only []
        rw [sum_map_upsert (fun a : Agg => a.elements.count j) t0 emptyAgg
          (fun a => addToAgg a q e.1) (if j = e.1 then 1 else 0)
          (fun a => count_addToAgg a q e.1 j)
          (by simp [count_addToAgg, emptyAgg])]
        simp)]
    have h3' := h3 j
    unfold spatialLeafCount at h3'
    rw [h3', List.count_append]
    by_cases hj : j = e.1 <;> simp [hj, List.count_singleton', beq_iff_eq]
  · rw [show (stepSpatial st e).2 = addToAgg st.2 q e.1 from rfl]
    simp [addToAgg, h4]

theorem invSpatial_fold (elems : List (JStr × ElemData)) :
    ∀ (keys : List JStr) (st : List (JStr × SNode) × Agg),
      InvSpatial keys st →
      InvSpatial (keys ++ elems.map Prod.fst) (elems.foldl stepSpatial st) := by
  induction elems with
  | nil => intro keys st h; simpa using h
  | cons e t ih =>
    intro keys st h
    have h' := invSpatial_step keys st e h
    have h'' := ih (keys ++ [e.1]) (stepSpatial st e) h'
    simpa [List.append_assoc] using h''

theorem invSpatial_result (elems : List (JStr × ElemData)) :
    InvSpatial (elems.map Prod.fst)
      ((aggregateSpatial elems).tree, (aggregateSpatial elems).totals) := by
  have h := invSpatial_fold elems [] ([], emptyAgg) invSpatial_init
  simpa [aggregateSpatial] using h

-- ======================== uniformat aggregation conservation ========================

/-- Total number of occurrences of a key across all leaves of a UniFormat
aggregation result: the level-3 aggregates plus the unclassified bucket. -/
def uniformatLeafCount (st : UniformatResult) (j : JStr) : ℕ :=
  (st.tree.map (fun p1 =>
    (p1.2.children.map (fun p2 =>
      (p2.2.children.map (fun p3 => p3.2.elements.count j)).sum)).sum)).sum
  + st.unclassified.elements.count j

/-- The invariant maintained by `aggregateUniformat` over the processed
prefix of the element list. -/
def InvUniformat (cls : List (JStr × ClsRec)) (keys : List JStr)
    (st : UniformatResult) : Prop :=
  (∀ a n1, mget? a st.tree = some n1 →
      n1.agg.vals = (n1.children.map (fun p => p.2.agg.vals)).sum
      ∧ ∀ b n2, mget? b n1.children = some n2 →
          n2.agg.vals = (n2.children.map (fun p => p.2.vals)).sum)
  ∧ st.totals.vals = (st.tree.map (fun p => p.2.agg.vals)).sum + st.unclassified.vals
  ∧ (∀ j, uniformatLeafCount st j = keys.count j)

theorem invUniformat_init (cls : List (JStr × ClsRec)) :
    InvUniformat cls [] ⟨[], emptyAgg, emptyAgg⟩ := by
  refine ⟨?_, ?_, ?_⟩
  · intro a n1 h
    simp [mget?_nil] at h
  · simp [vals_emptyAgg]
  · intro j
    simp [uniformatLeafCount, emptyAgg]

theorem invUniformat_step (cls : List (JStr × ClsRec)) (keys : List JStr)
    (st : UniformatResult) (e : JStr × ElemData)
    (h : InvUniformat cls keys st) :
    InvUniformat cls (keys ++ [e.1]) (stepUniformat cls st e) := by
  obtain ⟨h1, h2, h3⟩ := h
  set q := extractQuantities e.2.props with hq
  cases hc : clsCodeOf (mget? e.1 cls) with
  | none =>
    have hst : stepUniformat cls st e =
        { st with
          unclassified := addToAgg st.unclassified q e.1
          totals := addToAgg st.totals q e.1 } := by
      simp only [stepUniformat, ← hq]
      rw [hc]
    rw [hst]
    refine ⟨h1, ?_, ?_⟩
    · dsimp only
      rw [vals_addToAgg, vals_addToAgg, h2, add_assoc]
    · intro j
      have h3' := h3 j
      unfold uniformatLeafCount at h3' ⊢
      dsimp only
      rw [count_addToAgg, List.count_append]
      rw [← add_assoc, h3']
      by_cases hj : j = e.1 <;> simp [hj, List.count_singleton', beq_iff_eq]
  | some l3 =>
    have hst : stepUniformat cls st e =
        { tree :=
            upsert (l3.take 1) ⟨emptyAgg, []⟩
              (fun n1 =>
                { agg := addToAgg n1.agg q e.1
                  children :=
                    upsert (l3.take 3) ⟨emptyAgg, []⟩
                      (fun n2 =>
                        { agg := addToAgg n2.agg q e.1
                          children :=
                            upsert l3 emptyAgg (fun a => addToAgg a q e.1) n2.children })
                      n1.children })
              st.tree
          totals := addToAgg st.totals q e.1
          unclassified := st.unclassified } := by
      simp only [stepUniformat, ← hq]
      rw [hc]
    rw [hst]
    set f3 : Agg → Agg := fun a => addToAgg a q e.1 with hf3
    set f2 : UAggL2 → UAggL2 := fun n2 =>
      { agg := addToAgg n2.agg q e.1
        children := upsert l3 emptyAgg f3 n2.children } with hf2
    set f1 : UAggL1 → UAggL1 := fun n1 =>
      { agg := addToAgg n1.agg q e.1
        children := upsert (l3.take 3) ⟨emptyAgg, []⟩ f2 n1.children } with hf1
    have hf2agg : ∀ n2 : UAggL2, (f2 n2).agg.vals = n2.agg.vals + qVals q :=
      fun n2 => vals_addToAgg n2.agg q e.1
    have hf1agg : ∀ n1 : UAggL1, (f1 n1).agg.vals = n1.agg.vals + qVals q :=
      fun n1 => vals_addToAgg n1.agg q e.1
    have hf2d : (f2 ⟨emptyAgg, []⟩).agg.vals = qVals q := by
      rw [hf2agg]
      show emptyAgg.vals + qVals q = qVals q
      rw [vals_emptyAgg, zero_add]
    have hf1d : (f1 ⟨emptyAgg, []⟩).agg.vals = qVals q := by
      rw [hf1agg]
      show emptyAgg.vals + qVals q = qVals q
      rw [vals_emptyAgg, zero_add]
    have hf2children : ∀ n2 : UAggL2,
        (f2 n2).children = upsert l3 emptyAgg f3 n2.children := fun _ => rfl
    have hf1children : ∀ n1 : UAggL1,
        (f1 n1).children = upsert (l3.take 3) ⟨emptyAgg, []⟩ f2 n1.children :=
      fun _ => rfl
    -- a level-2 node satisfies its own conservation after the update
    have hl2cons : ∀ n2 : UAggL2,
        n2.agg.vals = (n2.children.map (fun p => p.2.vals)).sum →
        (f2 n2).agg.vals = ((f2 n2).children.map (fun p => p.2.vals)).sum := by
      intro n2 hn2
      rw [hf2agg, hf2children]
      rw [sum_map_upsert Agg.vals l3 emptyAgg f3 (qVals q)
        (fun a => vals_addToAgg a q e.1)
        (by show (addToAgg emptyAgg q e.1).vals = qVals q
            rw [vals_addToAgg, vals_emptyAgg, zero_add])]
      rw [hn2]
    -- a level-1 node satisfies level-1 conservation after the update
    have hl1cons : ∀ n1 : UAggL1,
        n1.agg.vals = (n1.children.map (fun p => p.2.agg.vals)).sum →
        (f1 n1).agg.vals = ((f1 n1).children.map (fun p => p.2.agg.vals)).sum := by
      intro n1 hn1
      rw [hf1agg, hf1children]
      rw [sum_map_upsert (fun n : UAggL2 => n.agg.vals) (l3.take 3) ⟨emptyAgg, []⟩ f2
        (qVals q) hf2agg hf2d]
      rw [hn1]
    refine ⟨?_, ?_, ?_⟩
    · -- per-node conservation at both levels
      intro a n1 hget
      dsimp only at hget
      by_cases ha : a = l3.take 1
      · subst ha
        rw [mget?_upsert_self] at hget
        cases hget
        cases hold : mget? (l3.take 1) st.tree with
        | none =>
          simp only [hold, Option.getD_none]
          constructor
          · exact hl1cons ⟨emptyAgg, []⟩ (by
              show emptyAgg.vals = (([] : List (JStr × UAggL2)).map
                (fun p => p.2.agg.vals)).sum
              simp [vals_emptyAgg])
          · intro b n2 hget2
            by_cases hb : b = l3.take 3
            · subst hb
              rw [mget?_upsert_self] at hget2
              cases hget2
              simp only [mget?_nil, Option.getD_none]
              exact hl2cons ⟨emptyAgg, []⟩ (by
                show emptyAgg.vals = (([] : List (JStr × Agg)).map
                  (fun p => p.2.vals)).sum
                simp [vals_emptyAgg])
            · rw [mget?_upsert_ne _ _ _ _ _ hb, mget?_nil] at hget2
              cases hget2
        | some n1old =>
          simp only [hold, Option.getD_some]
          obtain ⟨ho1, ho2⟩ := h1 (l3.take 1) n1old hold
          constructor
          · exact hl1cons n1old ho1
          · intro b n2 hget2
            by_cases hb : b = l3.take 3
            · subst hb
              rw [mget?_upsert_self] at hget2
              cases hget2
              cases hold2 : mget? (l3.take 3) n1old.children with
              | none =>
                simp only [hold2, Option.getD_none]
                exact hl2cons ⟨emptyAgg, []⟩ (by
                  show emptyAgg.vals = (([] : List (JStr × Agg)).map
                    (fun p => p.2.vals)).sum
                  simp [vals_emptyAgg])
              | some n2old =>
                simp only [hold2, Option.getD_some]
                exact hl2cons n2old (ho2 (l3.take 3) n2old hold2)
            · rw [mget?_upsert_ne _ _ _ _ _ hb] at hget2
              exact ho2 b n2 hget2
      · rw [mget?_upsert_ne _ _ _ _ _ ha] at hget
        exact h1 a n1 hget
    · -- totals conservation
      dsimp only
      rw [vals_addToAgg, h2]
      rw [sum_map_upsert (fun n : UAggL1 => n.agg.vals) (l3.take 1) ⟨emptyAgg, []⟩ f1
        (qVals q) hf1agg hf1d]
      abel
    · -- leaf-count conservation
      intro j
      have h3' := h3 j
      unfold uniformatLeafCount at h3' ⊢
      dsimp only
      have hcount2 : ∀ n2 : UAggL2,
          ((f2 n2).children.map (fun p3 => p3.2.elements.count j)).sum =
            (n2.children.map (fun p3 => p3.2.elements.count j)).sum
              + (if j = e.1 then 1 else 0) := by
        intro n2
        rw [hf2children]
        rw [sum_map_upsert (fun a : Agg => a.elements.count j) l3 emptyAgg f3
          (if j = e.1 then 1 else 0) (fun a => count_addToAgg a q e.1 j)
          (by show (addToAgg emptyAgg q e.1).elements.count j = _
              simp [count_addToAgg, emptyAgg])]
      have hcount1 : ∀ n1 : UAggL1,
          ((f1 n1).children.map (fun p2 =>
            (p2.2.children.map (fun p3 => p3.2.elements.count j)).sum)).sum =
            (n1.children.map (fun p2 =>
              (p2.2.children.map (fun p3 => p3.2.elements.count j)).sum)).sum
              + (if j = e.1 then 1 else 0) := by
        intro n1
        rw [hf1children]
        rw [sum_map_upsert
          (fun n2 : UAggL2 => (n2.children.map (fun p3 => p3.2.elements.count j)).sum)
          (l3.take 3) ⟨emptyAgg, []⟩ f2 (if j = e.1 then 1 else 0) hcount2
          (by simp [upsert, hf3, count_addToAgg, emptyAgg])]
      rw [sum_map_upsert
        (fun n1 : UAggL1 => (n1.children.map (fun p2 =>
          (p2.2.children.map (fun p3 => p3.2.elements.count j)).sum)).sum)
        (l3.take 1) ⟨emptyAgg, []⟩ f1 (if j = e.1 then 1 else 0) hcount1
        (by simp [upsert, hf3, count_addToAgg, emptyAgg])]
      rw [List.count_append, add_right_comm, h3']
      by_cases hj : j = e.1 <;> simp [hj, List.count_singleton', beq_iff_eq]

theorem invUniformat_fold (cls : List (JStr × ClsRec))
    (elems : List (JStr × ElemData)) :
    ∀ (keys : List JStr) (st : UniformatResult),
      InvUniformat cls keys st →
      InvUniformat cls (keys ++ elems.map Prod.fst)
        (elems.foldl (stepUniformat cls) st) := by
  induction elems with
  | nil => intro keys st h; simpa using h
  | cons e t ih =>
    intro keys st h
    have h' := invUniformat_step cls keys st e h
    have h'' := ih (keys ++ [e.1]) (stepUniformat cls st e) h'
    simpa [List.append_assoc] using h''

theorem invUniformat_result (elems : List (JStr × ElemData))
    (cls : List (JStr × ClsRec)) :
    InvUniformat cls (elems.map Prod.fst) (aggregateUniformat elems cls) := by
  have h := invUniformat_fold cls elems [] ⟨[], emptyAgg, emptyAgg⟩
    (invUniformat_init cls)
  simpa [aggregateUniformat] using h

-- ======================== claim C1 ========================

theorem count_eq_one_of_mem_nodup {l : List JStr} {k : JStr}
    (hnd : l.Nodup) (hk : k ∈ l) : l.count k = 1 := by
  induction l with
  | nil => cases hk
  | cons a t ih =>
    rw [List.nodup_cons] at hnd
    rcases List.mem_cons.mp hk with h | h
    · subst h
      rw [List.count_cons_self, List.count_eq_zero.mpr hnd.1]
    · have hne : k ≠ a := by rintro rfl; exact hnd.1 h
      rw [List.count_cons_of_ne hne]
      exact ih hnd.2 h

/-- Concrete element store used to instantiate the C1 theorem. -/
def c1Elems : List (JStr × ElemData) :=
  [ (js "0:1", ⟨js "IFCWALL", js "Wall", js "Level 1", []⟩),
    (js "0:2", ⟨js "IFCDOOR", js "Door", js "Level 1", []⟩) ]

/-- Concrete classification map used to instantiate the C1 theorem. -/
def c1Cls : List (JStr × ClsRec) :=
  [ (js "0:1", ⟨some (js "B2010"), js "auto-mapped", 7/10⟩) ]

/-- C1: in both aggregation modes, every non-leaf node's
count/area/length/volume totals are the pointwise sum of the aggregates
one level below it, grand totals equal the sum over the tree (plus the
unclassified bucket in classification mode), and when the element keys
are distinct every input key lands in exactly one leaf (the unclassified
bucket counting as a leaf) — nothing is dropped or double counted. -/
theorem c1_aggregation_conservation (elems : List (JStr × ElemData))
    (cls : List (JStr × ClsRec)) (hnd : (elems.map Prod.fst).Nodup) :
    (∀ s n, mget? s (aggregateSpatial elems).tree = some n →
        n.agg.vals = (n.types.map (fun p => p.2.vals)).sum)
    ∧ (aggregateSpatial elems).totals.vals =
        ((aggregateSpatial elems).tree.map (fun p => p.2.agg.vals)).sum
    ∧ (∀ j, spatialLeafCount (aggregateSpatial elems).tree j =
        (elems.map Prod.fst).count j)
    ∧ (∀ k, k ∈ elems.map Prod.fst →
        spatialLeafCount (aggregateSpatial elems).tree k = 1)
    ∧ (∀ a n1, mget? a (aggregateUniformat elems cls).tree = some n1 →
        n1.agg.vals = (n1.children.map (fun p => p.2.agg.vals)).sum
        ∧ ∀ b n2, mget? b n1.children = some n2 →
            n2.agg.vals = (n2.children.map (fun p => p.2.vals)).sum)
    ∧ (aggregateUniformat elems cls).totals.vals =
        ((aggregateUniformat elems cls).tree.map (fun p => p.2.agg.vals)).sum
          + (aggregateUniformat elems cls).unclassified.vals
    ∧ (∀ j, uniformatLeafCount (aggregateUniformat elems cls) j =
        (elems.map Prod.fst).count j)
    ∧ (∀ k, k ∈ elems.map Prod.fst →
        uniformatLeafCount (aggregateUniformat elems cls) k = 1) := by
  obtain ⟨hs1, hs2, hs3, _⟩ := invSpatial_result elems
  obtain ⟨hu1, hu2, hu3⟩ := invUniformat_result elems cls
  refine ⟨hs1, hs2, hs3, ?_, hu1, hu2, hu3, ?_⟩
  · intro k hk
    rw [hs3 k]
    exact count_eq_one_of_mem_nodup hnd hk
  · intro k hk
    rw [hu3 k]
    exact count_eq_one_of_mem_nodup hnd hk

/-- Witness for C1 at a concrete two-element store. -/
theorem c1_aggregation_conservation_witness :
    spatialLeafCount (aggregateSpatial c1Elems).tree (js "0:1") = 1
    ∧ uniformatLeafCount (aggregateUniformat c1Elems c1Cls) (js "0:1") = 1 := by
  have h := c1_aggregation_conservation c1Elems c1Cls (by decide)
  exact ⟨h.2.2.2.1 _ (by decide), h.2.2.2.2.2.2.2 _ (by decide)⟩

-- ======================== classification lookup lemmas ========================

theorem mget?_of_mem_nodup {V : Type} {l : List (JStr × V)} {k : JStr} {v : V}
    (hnd : (l.map Prod.fst).Nodup) (hmem : (k, v) ∈ l) : mget? k l = some v := by
  induction l with
  | nil => cases hmem
  | cons p t ih =>
    obtain ⟨k', v'⟩ := p
    rw [List.map_cons, List.nodup_cons] at hnd
    rcases List.mem_cons.mp hmem with h | h
    · cases h
      simp [mget?_cons]
    · have hne : k' ≠ k := by
        rintro rfl
        exact hnd.1 (List.mem_map.mpr ⟨(k', v), h, rfl⟩)
      rw [mget?_cons, if_neg hne]
      exact ih hnd.2 h

theorem classifyAll_untouched (ov : List (JStr × JStr)) (k : JStr)
    (elems : List (JStr × ElemData)) (hk : k ∉ elems.map Prod.fst) :
    ∀ acc : List (JStr × ClsRec),
      mget? k (elems.foldl
        (fun cls e => mset e.1 (classifyElement ov e.1 e.2) cls) acc) =
      mget? k acc := by
  induction elems with
  | nil => intro acc; rfl
  | cons e t ih =>
    intro acc
    rw [List.map_cons] at hk
    have hne : k ≠ e.1 := fun h => hk (List.mem_cons.mpr (Or.inl h))
    have ht : k ∉ t.map Prod.fst := fun h => hk (List.mem_cons_of_mem _ h)
    rw [List.foldl_cons, ih ht, mget?_mset_ne _ _ _ _ hne]

theorem classifyAll_mget (ov : List (JStr × JStr)) (k : JStr) (d : ElemData)
    (elems : List (JStr × ElemData)) (hnd : (elems.map Prod.fst).Nodup)
    (hmem : (k, d) ∈ elems) :
    mget? k (classifyAllElements elems ov) = some (classifyElement ov k d) := by
  unfold classifyAllElements
  suffices h : ∀ acc : List (JStr × ClsRec),
      (elems.map Prod.fst).Nodup → (k, d) ∈ elems →
      mget? k (elems.foldl
        (fun cls e => mset e.1 (classifyElement ov e.1 e.2) cls) acc) =
      some (classifyElement ov k d) from h [] hnd hmem
  clear hnd hmem
  induction elems with
  | nil => intro acc _ hmem; cases hmem
  | cons e t ih =>
    intro acc hnd hmem
    rw [List.map_cons, List.nodup_cons] at hnd
    rcases List.mem_cons.mp hmem with h | h
    · cases h
      rw [List.foldl_cons, classifyAll_untouched ov k t hnd.1, mget?_mset_self]
    · rw [List.foldl_cons]
      exact ih _ hnd.2 h

/-- Under no override, the inline cascade of `classifyAllElements` and the
re-derivation branch of `setManualClassification` compute the same record. -/
theorem classifyElement_no_override (ov : List (JStr × JStr)) (k : JStr)
    (d : ElemData) (h : mget? k ov = none) :
    classifyElement ov k d = reclassifyRecord d := by
  unfold classifyElement reclassifyRecord
  rw [h]

-- ======================== claim C2 ========================

/-- Concrete element store used to instantiate the C2 theorem. -/
def c2Elems : List (JStr × ElemData) :=
  [ (js "0:1", ⟨js "IFCWALL", js "Wall", js "Level 1", []⟩),
    (js "0:2", ⟨js "IFCDOOR", js "Door", js "Level 1", []⟩) ]

/-- Concrete override map used to instantiate the C2 theorem. -/
def c2Overrides : List (JStr × JStr) := [(js "0:2", js "C1020")]

/-- C2: an element with a recorded manual override is classified by a full
`classifyAllElements` rebuild to exactly the overridden code with source
`manual` and confidence 1, no matter what the other cascade passes would
have produced. -/
theorem c2_override_precedence (elems : List (JStr × ElemData))
    (ov : List (JStr × JStr)) (k : JStr) (c : JStr) (d : ElemData)
    (hnd : (elems.map Prod.fst).Nodup) (hov : mget? k ov = some c)
    (hmem : (k, d) ∈ elems) :
    mget? k (classifyAllElements elems ov) =
      some ⟨some c, js "manual", 1⟩ := by
  rw [classifyAll_mget ov k d elems hnd hmem]
  unfold classifyElement
  rw [hov]

/-- Witness for C2: the overridden door classifies to the override. -/
theorem c2_override_precedence_witness :
    mget? (js "0:2") (classifyAllElements c2Elems c2Overrides) =
      some ⟨some (js "C1020"), js "manual", 1⟩ :=
  c2_override_precedence c2Elems c2Overrides (js "0:2") (js "C1020")
    ⟨js "IFCDOOR", js "Door", js "Level 1", []⟩
    (by decide) (by decide) (by decide)

-- ======================== claim C3 ========================

/-- Concrete element store used to instantiate the C3 theorem. -/
def c3Elems : List (JStr × ElemData) :=
  [ (js "0:1", ⟨js "IFCWALL", js "Wall", js "Level 1", []⟩),
    (js "0:2", ⟨js "IFCDOOR", js "Door", js "Level 1", []⟩) ]

/-- Concrete starting state used to instantiate the C3 theorem. -/
def c3State : UfState :=
  ⟨[(js "0:1", ⟨some (js "A1010"), js "manual", 1⟩)],
   [(js "0:1", js "A1010")]⟩

/-- C3: clearing an override through `setManualClassification(key, null)`
stores for that element exactly the record a full `classifyAllElements`
rebuild with no override for that element computes for it. -/
theorem c3_rederivation_equivalence (models : List Model)
    (elems : List (JStr × ElemData)) (st : UfState) (k : JStr) (d : ElemData)
    (ov' : List (JStr × JStr)) (hnd : (elems.map Prod.fst).Nodup)
    (hmem : (k, d) ∈ elems) (hov' : mget? k ov' = none) :
    mget? k (setManualClassification models elems k none st).1.classifications
      = mget? k (classifyAllElements elems ov')
    ∧ mget? k (setManualClassification models elems k none st).1.classifications
      = some (reclassifyRecord d) := by
  have hget : mget? k elems = some d := mget?_of_mem_nodup hnd hmem
  have hlhs :
      mget? k (setManualClassification models elems k none st).1.classifications
        = some (reclassifyRecord d) := by
    unfold setManualClassification
    dsimp only
    rw [hget]
    dsimp only
    rw [mget?_mset_self]
  refine ⟨?_, hlhs⟩
  rw [hlhs, classifyAll_mget ov' k d elems hnd hmem,
    classifyElement_no_override ov' k d hov']

/-- Witness for C3 at a concrete wall element. -/
theorem c3_rederivation_equivalence_witness :
    mget? (js "0:1")
        (setManualClassification [] c3Elems (js "0:1") none c3State).1.classifications
      = mget? (js "0:1") (classifyAllElements c3Elems [])
    ∧ mget? (js "0:1")
        (setManualClassification [] c3Elems (js "0:1") none c3State).1.classifications
      = some (reclassifyRecord ⟨js "IFCWALL", js "Wall", js "Level 1", []⟩) :=
  c3_rederivation_equivalence [] c3Elems c3State (js "0:1")
    ⟨js "IFCWALL", js "Wall", js "Level 1", []⟩ []
    (by decide) (by decide) (by decide)

-- ======================== claim C7 ========================

/-- The loop body of `bulkAssignByType` for one element. -/
def bulkStep (ifcType l3Code : JStr) (s : UfState) (e : JStr × ElemData) :
    UfState :=
  if e.2.ifcType == ifcType then
    if l3Code ≠ [] && lookupTruthy L3_LABELS l3Code then
      { manualOverrides := mset e.1 l3Code s.manualOverrides
        classifications :=
          mset e.1 ⟨some l3Code, js "manual", 1⟩ s.classifications }
    else s
  else s

theorem bulkAssignByType_eq (models : List Model)
    (elems : List (JStr × ElemData)) (ifcType l3Code : JStr) (st : UfState) :
    bulkAssignByType models elems ifcType l3Code st =
      (elems.foldl (bulkStep ifcType l3Code) st,
       [saveOverridesStore models
         (elems.foldl (bulkStep ifcType l3Code) st).manualOverrides]) := rfl

theorem bulkStep_untouched (ifcType l3Code : JStr) (s : UfState)
    (e : JStr × ElemData) (k : JStr) (h : k ≠ e.1) :
    mget? k (bulkStep ifcType l3Code s e).manualOverrides =
      mget? k s.manualOverrides
    ∧ mget? k (bulkStep ifcType l3Code s e).classifications =
      mget? k s.classifications := by
  unfold bulkStep
  split_ifs <;> simp [mget?_mset_ne _ _ _ _ h]

theorem bulk_fold_untouched (ifcType l3Code : JStr) (k : JStr)
    (elems : List (JStr × ElemData)) (hk : k ∉ elems.map Prod.fst) :
    ∀ st : UfState,
      mget? k ((elems.foldl (bulkStep ifcType l3Code) st).manualOverrides) =
        mget? k st.manualOverrides
      ∧ mget? k ((elems.foldl (bulkStep ifcType l3Code) st).classifications) =
        mget? k st.classifications := by
  induction elems with
  | nil => intro st; exact ⟨rfl, rfl⟩
  | cons e t ih =>
    intro st
    rw [List.map_cons] at hk
    have hne : k ≠ e.1 := fun h => hk (List.mem_cons.mpr (Or.inl h))
    have ht : k ∉ t.map Prod.fst := fun h => hk (List.mem_cons_of_mem _ h)
    rw [List.foldl_cons]
    obtain ⟨h1, h2⟩ := ih ht (bulkStep ifcType l3Code st e)
    obtain ⟨h3, h4⟩ := bulkStep_untouched ifcType l3Code st e k hne
    exact ⟨h1.trans h3, h2.trans h4⟩

theorem bulk_fold_assigns (ifcType l3Code : JStr) (k : JStr) (d : ElemData)
    (elems : List (JStr × ElemData)) (hnd : (elems.map Prod.fst).Nodup)
    (hmem : (k, d) ∈ elems) (hty : d.ifcType = ifcType)
    (hcond : (l3Code ≠ [] && lookupTruthy L3_LABELS l3Code) = true) :
    ∀ st : UfState,
      mget? k ((elems.foldl (bulkStep ifcType l3Code) st).manualOverrides) =
        some l3Code
      ∧ mget? k ((elems.foldl (bulkStep ifcType l3Code) st).classifications) =
        some ⟨some l3Code, js "manual", 1⟩ := by
  induction elems with
  | nil => cases hmem
  | cons e t ih =>
    intro st
    rw [List.map_cons, List.nodup_cons] at hnd
    rcases List.mem_cons.mp hmem with h | h
    · cases h
      rw [List.foldl_cons]
      obtain ⟨h1, h2⟩ := bulk_fold_untouched ifcType l3Code k t hnd.1
        (bulkStep ifcType l3Code st (k, d))
      rw [h1, h2]
      unfold bulkStep
      rw [if_pos (by simp [hty]), if_pos hcond]
      exact ⟨mget?_mset_self _ _ _, mget?_mset_self _ _ _⟩
    · rw [List.foldl_cons]
      exact ih hnd.2 h (bulkStep ifcType l3Code st e)

theorem isKnownL3_ne_nil (c : JStr) (h : isKnownL3 c = true) : c ≠ [] := by
  rintro rfl
  rw [show isKnownL3 [] = false from by decide] at h
  cases h

/-- Concrete element store used to instantiate the C7 theorem. -/
def c7Elems : List (JStr × ElemData) :=
  [ (js "0:1", ⟨js "IFCDOOR", js "Door A", js "Level 1", []⟩),
    (js "0:2", ⟨js "IFCDOOR", js "Door B", js "Level 1", []⟩),
    (js "0:3", ⟨js "IFCWALL", js "Wall", js "Level 1", []⟩) ]

/-- C7: `bulkAssignByType` with a known leaf code records, for every
loaded element of the given entity type, an override and a manual
classification record with confidence 1, and performs exactly one
persistence write for the whole batch. -/
theorem c7_bulk_assign (models : List Model)
    (elems : List (JStr × ElemData)) (ifcType l3Code : JStr) (st : UfState)
    (hnd : (elems.map Prod.fst).Nodup) (hknown : isKnownL3 l3Code = true) :
    (∀ k d, (k, d) ∈ elems → d.ifcType = ifcType →
        mget? k (bulkAssignByType models elems ifcType l3Code st).1.manualOverrides
          = some l3Code
        ∧ mget? k (bulkAssignByType models elems ifcType l3Code st).1.classifications
          = some ⟨some l3Code, js "manual", 1⟩)
    ∧ (bulkAssignByType models elems ifcType l3Code st).2.length = 1 := by
  constructor
  · intro k d hmem hty
    rw [bulkAssignByType_eq]
    have hcond : (l3Code ≠ [] && lookupTruthy L3_LABELS l3Code) = true := by
      have h1 : lookupTruthy L3_LABELS l3Code = true := hknown
      have h2 : l3Code ≠ [] := isKnownL3_ne_nil l3Code hknown
      simp [h1, h2]
    exact bulk_fold_assigns ifcType l3Code k d elems hnd hmem hty hcond st
  · rw [bulkAssignByType_eq]
    rfl

/-- Witness for C7: assigning `B2030` to both doors in one batch. -/
theorem c7_bulk_assign_witness :
    (mget? (js "0:1")
        (bulkAssignByType [] c7Elems (js "IFCDOOR") (js "B2030") ⟨[], []⟩).1.manualOverrides
      = some (js "B2030"))
    ∧ (bulkAssignByType [] c7Elems (js "IFCDOOR") (js "B2030") ⟨[], []⟩).2.length = 1 := by
  have h := c7_bulk_assign [] c7Elems (js "IFCDOOR") (js "B2030") ⟨[], []⟩
    (by decide) (by decide)
  exact ⟨(h.1 (js "0:1") ⟨js "IFCDOOR", js "Door A", js "Level 1", []⟩
    (by decide) (by decide)).1, h.2⟩

-- ======================== claim C8 ========================

/-- Concrete starting state used to instantiate the C8 theorem. -/
def c8State : UfState :=
  ⟨[(js "0:1", ⟨some (js "B2010"), js "auto-mapped", 7/10⟩)],
   [(js "0:2", js "C1020")]⟩

/-- C8: `setManualClassification` with a non-null code that is not a known
leaf code leaves both the classifications map and the overrides map
unchanged — the invalid assignment is a no-op on the engine state. -/
theorem c8_invalid_code_rejected (models : List Model)
    (elems : List (JStr × ElemData)) (st : UfState) (k : JStr) (c : JStr)
    (hc : isKnownL3 c = false) :
    (setManualClassification models elems k (some c) st).1 = st := by
  unfold setManualClassification
  have h1 : lookupTruthy L3_LABELS c = false := hc
  simp [h1]

/-- Witness for C8: the taxonomy has no code `Z9999`, so assigning it
changes nothing. -/
theorem c8_invalid_code_rejected_witness :
    (setManualClassification [] [] (js "0:1") (some (js "Z9999")) c8State).1 =
      c8State :=
  c8_invalid_code_rejected [] [] c8State (js "0:1") (js "Z9999") (by decide)

-- ======================== claim C10 ========================

theorem exists_of_findSome {α β : Type} (f : α → Option β) (l : List α)
    (b : β) (h : l.findSome? f = some b) : ∃ a ∈ l, f a = some b := by
  induction l with
  | nil => simp [List.findSome?] at h
  | cons x t ih =>
    rw [List.findSome?_cons] at h
    cases hf : f x with
    | some y =>
      rw [hf] at h
      exact ⟨x, List.mem_cons_self x t, hf.trans h⟩
    | none =>
      rw [hf] at h
      obtain ⟨a, ha, hfa⟩ := ih h
      exact ⟨a, List.mem_cons_of_mem x ha, hfa⟩

/-- Every code stored in the override map is a known leaf code. -/
def WFOverrides (ov : List (JStr × JStr)) : Prop :=
  ∀ p ∈ ov, isKnownL3 p.2 = true

/-- Every non-null code of a stored classification record is a known leaf
code. -/
def WFClassifications (cls : List (JStr × ClsRec)) : Prop :=
  ∀ p ∈ cls, ∀ c, p.2.code = some c → isKnownL3 c = true

/-- Well-formedness of the whole engine state. -/
def WFState (st : UfState) : Prop :=
  WFOverrides st.manualOverrides ∧ WFClassifications st.classifications

theorem detectFromProperties_known (d : ElemData) (c : JStr)
    (h : detectFromProperties d = some c) : isKnownL3 c = true := by
  unfold detectFromProperties at h
  obtain ⟨kv, _, hkv⟩ := exists_of_findSome _ _ _ h
  dsimp only at hkv
  cases hv : kv.2 with
  | str sv =>
    rw [hv] at hkv
    dsimp only at hkv
    by_cases hcp : (classificationKeys.any fun ck =>
        strContains (toLowerList kv.1) ck) = true
    · rw [if_pos hcp] at hkv
      by_cases h1 : (ufPatternTest (stripSeps (jsTrim sv)) &&
          lookupTruthy L3_LABELS (stripSeps (jsTrim sv))) = true
      · rw [if_pos h1] at hkv
        cases hkv
        exact (Bool.and_eq_true _ _ |>.mp h1).2
      · rw [if_neg h1] at hkv
        by_cases h2 : (ufPatternTest (stripSeps sv) &&
            lookupTruthy L3_LABELS (stripSeps sv)) = true
        · rw [if_pos h2] at hkv
          cases hkv
          exact (Bool.and_eq_true _ _ |>.mp h2).2
        · rw [if_neg h2] at hkv
          cases hkv
    · rw [if_neg hcp] at hkv
      cases hkv
  | num q => rw [hv] at hkv; exact absurd hkv (by simp)
  | boolean b => rw [hv] at hkv; exact absurd hkv (by simp)

theorem contextAwareMap_known (d : ElemData) (c : JStr)
    (h : contextAwareMap d = some c) : isKnownL3 c = true := by
  unfold contextAwareMap at h
  dsimp only at h
  split_ifs at h <;> first
    | (cases h; decide)
    | cases h

theorem mem_of_mget? {V : Type} {k : JStr} {v : V} {m : List (JStr × V)}
    (h : mget? k m = some v) : (k, v) ∈ m := by
  unfold mget? at h
  cases hf : m.find? (fun r => r.1 == k) with
  | none => rw [hf] at h; cases h
  | some q =>
    rw [hf] at h
    have hp := List.find?_some hf
    have hm : q ∈ m := List.mem_of_find?_eq_some hf
    have h1 : q.1 = k := by simpa using hp
    have h2 : q.2 = v := by simpa using h
    have hpe : q = (k, v) := Prod.ext h1 h2
    rw [← hpe]
    exact hm

theorem typeDefault_map_known :
    (IFC_TYPE_DEFAULT_MAP.all fun p =>
      match p.2 with
      | some c => isKnownL3 c
      | none => true) = true := by decide

theorem typeDefaultGet_known (t : JStr) (c : JStr)
    (h : typeDefaultGet t = some c) : isKnownL3 c = true := by
  unfold typeDefaultGet at h
  cases hm : mget? t IFC_TYPE_DEFAULT_MAP with
  | none => rw [hm] at h; cases h
  | some v =>
    rw [hm] at h
    cases v with
    | none => exact absurd h (by simp)
    | some c' =>
      dsimp only at h
      by_cases hc' : c' = []
      · rw [if_pos hc'] at h; cases h
      · rw [if_neg hc'] at h
        cases h
        have hall := List.all_eq_true.mp typeDefault_map_known _ (mem_of_mget? hm)
        simpa using hall

theorem reclassifyRecord_known (d : ElemData) (c : JStr)
    (h : (reclassifyRecord d).code = some c) : isKnownL3 c = true := by
  unfold reclassifyRecord at h
  cases h1 : detectFromProperties d with
  | some c1 =>
    rw [h1] at h
    cases h
    exact detectFromProperties_known d c h1
  | none =>
    rw [h1] at h
    cases h2 : contextAwareMap d with
    | some c2 =>
      rw [h2] at h
      cases h
      exact contextAwareMap_known d c h2
    | none =>
      rw [h2] at h
      cases h3 : typeDefaultGet d.ifcType with
      | some c3 =>
        rw [h3] at h
        cases h
        exact typeDefaultGet_known d.ifcType c h3
      | none => rw [h3] at h; cases h

theorem classifyElement_known (ov : List (JStr × JStr)) (k : JStr)
    (d : ElemData) (hov : WFOverrides ov) (c : JStr)
    (h : (classifyElement ov k d).code = some c) : isKnownL3 c = true := by
  unfold classifyElement at h
  cases h0 : mget? k ov with
  | some c0 =>
    rw [h0] at h
    cases h
    exact hov _ (mem_of_mget? h0)
  | none =>
    rw [h0] at h
    exact reclassifyRecord_known d c (by rw [reclassifyRecord]; exact h)

theorem classifyAllElements_WF (elems : List (JStr × ElemData))
    (ov : List (JStr × JStr)) (hov : WFOverrides ov) :
    WFClassifications (classifyAllElements elems ov) := by
  unfold classifyAllElements
  suffices hgen : ∀ acc : List (JStr × ClsRec), WFClassifications acc →
      WFClassifications (elems.foldl
        (fun cls e => mset e.1 (classifyElement ov e.1 e.2) cls) acc) from
    hgen [] (by intro p hp; cases hp)
  induction elems with
  | nil => intro acc hacc; exact hacc
  | cons e t ih =>
    intro acc hacc
    rw [List.foldl_cons]
    refine ih _ ?_
    intro p hp c hc
    rcases mem_mset p e.1 (classifyElement ov e.1 e.2) acc hp with h | h
    · rw [h] at hc
      exact classifyElement_known ov e.1 e.2 hov c hc
    · exact hacc p h c hc

theorem setManualClassification_WF (models : List Model)
    (elems : List (JStr × ElemData)) (k : JStr) (code : Option JStr)
    (st : UfState) (hst : WFState st) :
    WFState (setManualClassification models elems k code st).1 := by
  obtain ⟨hov, hcls⟩ := hst
  unfold setManualClassification
  cases code with
  | some c =>
    dsimp only
    by_cases hc : (c ≠ [] && lookupTruthy L3_LABELS c) = true
    · rw [if_pos hc]
      have hknown : isKnownL3 c = true := (Bool.and_eq_true _ _ |>.mp hc).2
      constructor
      · intro p hp
        rcases mem_mset p k c _ hp with h | h
        · rw [h]; exact hknown
        · exact hov p h
      · intro p hp c' hc'
        rcases mem_mset p k ⟨some c, js "manual", 1⟩ _ hp with h | h
        · rw [h] at hc'
          cases hc'
          exact hknown
        · exact hcls p h c' hc'
    · rw [if_neg hc]
      exact ⟨hov, hcls⟩
  | none =>
    dsimp only
    constructor
    · intro p hp
      exact hov p (mem_mdel p k _ hp)
    · cases hd : mget? k elems with
      | some d =>
        intro p hp c' hc'
        rcases mem_mset p k (reclassifyRecord d) _ hp with h | h
        · rw [h] at hc'
          exact reclassifyRecord_known d c' hc'
        · exact hcls p h c' hc'
      | none =>
        exact hcls

theorem bulkAssignByType_WF (models : List Model)
    (elems : List (JStr × ElemData)) (ifcType l3Code : JStr) (st : UfState)
    (hst : WFState st) :
    WFState (bulkAssignByType models elems ifcType l3Code st).1 := by
  rw [bulkAssignByType_eq]
  dsimp only
  induction elems generalizing st with
  | nil => exact hst
  | cons e t ih =>
    rw [List.foldl_cons]
    refine ih _ ?_
    obtain ⟨hov, hcls⟩ := hst
    unfold bulkStep
    split_ifs with h1 h2
    · have hknown : isKnownL3 l3Code = true := (Bool.and_eq_true _ _ |>.mp h2).2
      constructor
      · intro p hp
        rcases mem_mset p e.1 l3Code _ hp with h | h
        · rw [h]; exact hknown
        · exact hov p h
      · intro p hp c' hc'
        rcases mem_mset p e.1 ⟨some l3Code, js "manual", 1⟩ _ hp with h | h
        · rw [h] at hc'
          cases hc'
          exact hknown
        · exact hcls p h c' hc'
    · exact ⟨hov, hcls⟩
    · exact ⟨hov, hcls⟩

theorem loadOverridesMap_WF (models : List Model)
    (stored : List (JStr × JStr)) (cur : List (JStr × JStr))
    (hcur : WFOverrides cur) :
    WFOverrides (loadOverridesMap models stored cur) := by
  unfold loadOverridesMap
  induction stored generalizing cur with
  | nil => exact hcur
  | cons e t ih =>
    rw [List.foldl_cons]
    refine ih _ ?_
    cases hf : fromStableKey models e.1 with
    | none => exact hcur
    | some ck =>
      dsimp only
      by_cases ht : lookupTruthy L3_LABELS e.2 = true
      · rw [if_pos ht]
        intro p hp
        rcases mem_mset p ck e.2 cur hp with h | h
        · rw [h]; exact ht
        · exact hcur p h
      · rw [if_neg ht]
        exact hcur

theorem importOverrides_WF (models : List Model)
    (elems : List (JStr × ElemData)) (data : List (JStr × JStr))
    (st : UfState) (hov : WFOverrides st.manualOverrides) :
    WFState (importOverrides models elems data st) := by
  have hov' : WFOverrides (data.foldl
      (fun ov p =>
        match fromStableKey models p.1 with
        | some ck => if lookupTruthy L3_LABELS p.2 then mset ck p.2 ov else ov
        | none => ov)
      st.manualOverrides) := by
    have := loadOverridesMap_WF models data st.manualOverrides hov
    unfold loadOverridesMap at this
    exact this
  exact ⟨hov', classifyAllElements_WF elems _ hov'⟩

/-- Concrete stored-overrides object used to instantiate the C10 theorem. -/
def c10Store : List (JStr × JStr) :=
  [(js "model.ifc:7", js "B2030"), (js "model.ifc:9", js "QQQQ")]

/-- Concrete models manifest used to instantiate the C10 theorem. -/
def c10Models : List Model := [⟨0, js "model.ifc"⟩]

/-- C10: every mutation path of the engine — full reclassification, manual
set, bulk assign, override load, and override import — keeps every stored
override code and every non-null stored classification code inside the
known leaf-code table. -/
theorem c10_known_code_invariant :
    (∀ (elems : List (JStr × ElemData)) (ov : List (JStr × JStr)),
        WFOverrides ov → WFClassifications (classifyAllElements elems ov))
    ∧ (∀ (models : List Model) (elems : List (JStr × ElemData)) (k : JStr)
        (code : Option JStr) (st : UfState), WFState st →
        WFState (setManualClassification models elems k code st).1)
    ∧ (∀ (models : List Model) (elems : List (JStr × ElemData))
        (ifcType l3Code : JStr) (st : UfState), WFState st →
        WFState (bulkAssignByType models elems ifcType l3Code st).1)
    ∧ (∀ (models : List Model) (stored cur : List (JStr × JStr)),
        WFOverrides cur → WFOverrides (loadOverridesMap models stored cur))
    ∧ (∀ (models : List Model) (elems : List (JStr × ElemData))
        (data : List (JStr × JStr)) (st : UfState),
        WFOverrides st.manualOverrides →
        WFState (importOverrides models elems data st)) :=
  ⟨classifyAllElements_WF,
   setManualClassification_WF,
   bulkAssignByType_WF,
   loadOverridesMap_WF,
   importOverrides_WF⟩

/-- Witness for C10: loading a stored object with one valid and one bogus
code yields an override map whose codes are all known. -/
theorem c10_known_code_invariant_witness :
    WFOverrides (loadOverridesMap c10Models c10Store []) :=
  c10_known_code_invariant.2.2.2.1 c10Models c10Store []
    (by intro p hp; cases hp)

-- ======================== string splitting lemmas ========================

theorem splitOnChar_ne_nil (c : Char) (l : JStr) : splitOnChar c l ≠ [] := by
  induction l with
  | nil => simp [splitOnChar]
  | cons x xs ih =>
    unfold splitOnChar
    by_cases h : x = c
    · simp [h]
    · rw [if_neg h]
      cases hs : splitOnChar c xs with
      | nil => simp
      | cons y ys => simp

theorem splitOnChar_not_mem (c : Char) (l : JStr) (h : c ∉ l) :
    splitOnChar c l = [l] := by
  induction l with
  | nil => rfl
  | cons x xs ih =>
    have hx : x ≠ c := fun hh => h (hh ▸ List.mem_cons_self x xs)
    have hxs : c ∉ xs := fun hh => h (List.mem_cons_of_mem x hh)
    unfold splitOnChar
    rw [if_neg hx, ih hxs]

theorem splitOnChar_append (c : Char) (a b : JStr) (ha : c ∉ a) :
    splitOnChar c (a ++ c :: b) = a :: splitOnChar c b := by
  induction a with
  | nil =>
    rw [List.nil_append]
    conv_lhs => rw [splitOnChar]
    rw [if_pos rfl]
  | cons x xs ih =>
    have hx : x ≠ c := fun hh => ha (hh ▸ List.mem_cons_self x xs)
    have hxs : c ∉ xs := fun hh => ha (List.mem_cons_of_mem x hh)
    rw [List.cons_append]
    conv_lhs => rw [splitOnChar]
    rw [if_neg hx, ih hxs]

theorem splitOnChar_two (c : Char) (a b : JStr) (ha : c ∉ a) (hb : c ∉ b) :
    splitOnChar c (a ++ c :: b) = [a, b] := by
  rw [splitOnChar_append c a b ha, splitOnChar_not_mem c b hb]

theorem splitOnChar_pieces (c : Char) (l : JStr) :
    ∀ p ∈ splitOnChar c l, c ∉ p := by
  induction l with
  | nil =>
    intro p hp
    simp only [splitOnChar, List.mem_singleton] at hp
    rw [hp]
    simp
  | cons x xs ih =>
    intro p hp
    unfold splitOnChar at hp
    by_cases hx : x = c
    · rw [if_pos hx] at hp
      rcases List.mem_cons.mp hp with h | h
      · rw [h]; simp
      · exact ih p h
    · rw [if_neg hx] at hp
      cases hs : splitOnChar c xs with
      | nil => exact absurd hs (splitOnChar_ne_nil c xs)
      | cons y ys =>
        rw [hs] at hp
        rcases List.mem_cons.mp hp with h | h
        · rw [h]
          intro hc
          rcases List.mem_cons.mp hc with h1 | h1
          · exact hx h1.symm
          · exact ih y (hs ▸ List.mem_cons_self y ys) h1
        · exact ih p (hs ▸ List.mem_cons_of_mem y h)

theorem splitAtLastColon_none (b : JStr) (h : ':' ∉ b) :
    splitAtLastColon b = none := by
  induction b with
  | nil => rfl
  | cons x xs ih =>
    have hx : x ≠ ':' := fun hh => h (hh ▸ List.mem_cons_self x xs)
    have hxs : ':' ∉ xs := fun hh => h (List.mem_cons_of_mem x hh)
    unfold splitAtLastColon
    rw [ih hxs, if_neg hx]

theorem splitAtLastColon_append (a b : JStr) (hb : ':' ∉ b) :
    splitAtLastColon (a ++ ':' :: b) = some (a, b) := by
  induction a with
  | nil =>
    rw [List.nil_append]
    unfold splitAtLastColon
    rw [splitAtLastColon_none b hb, if_pos rfl]
  | cons x xs ih =>
    rw [List.cons_append]
    unfold splitAtLastColon
    rw [ih]

theorem not_mem_of_splitAtLastColon_none (s : JStr)
    (h : splitAtLastColon s = none) : ':' ∉ s := by
  induction s with
  | nil => simp
  | cons x xs ih =>
    unfold splitAtLastColon at h
    cases hs : splitAtLastColon xs with
    | some q => rw [hs] at h; cases h
    | none =>
      rw [hs] at h
      by_cases hx : x = ':'
      · rw [if_pos hx] at h; cases h
      · intro hc
        rcases List.mem_cons.mp hc with h1 | h1
        · exact hx h1.symm
        · exact ih hs h1

theorem splitAtLastColon_shape (s : JStr) (a b : JStr)
    (h : splitAtLastColon s = some (a, b)) :
    s = a ++ ':' :: b ∧ ':' ∉ b := by
  induction s generalizing a b with
  | nil => cases h
  | cons x xs ih =>
    unfold splitAtLastColon at h
    cases hs : splitAtLastColon xs with
    | some q =>
      rw [hs] at h
      obtain ⟨a1, b1⟩ := q
      dsimp only at h
      injection h with hinj
      rw [Prod.mk.injEq] at hinj
      obtain ⟨hA, hB⟩ := hinj
      subst hA
      subst hB
      obtain ⟨h1, h2⟩ := ih a1 b1 hs
      refine ⟨?_, h2⟩
      rw [List.cons_append, ← h1]
    | none =>
      rw [hs] at h
      by_cases hx : x = ':'
      · rw [if_pos hx] at h
        cases h
        subst hx
        exact ⟨rfl, not_mem_of_splitAtLastColon_none xs hs⟩
      · rw [if_neg hx] at h
        cases h

theorem lastColon_decomp_unique (a b a' b' : JStr) (hb : ':' ∉ b)
    (hb' : ':' ∉ b') (h : a ++ ':' :: b = a' ++ ':' :: b') :
    a = a' ∧ b = b' := by
  have h1 := splitAtLastColon_append a b hb
  have h2 := splitAtLastColon_append a' b' hb'
  rw [h] at h1
  rw [h2] at h1
  cases h1
  exact ⟨rfl, rfl⟩

-- ======================== digit rendering and parsing lemmas ========================

theorem digitChar_isDigit (d : ℕ) (h : d < 10) : (digitChar d).isDigit = true := by
  interval_cases d <;> decide

theorem digitChar_toNat (d : ℕ) (h : d < 10) : (digitChar d).toNat = 48 + d := by
  interval_cases d <;> decide

theorem natDigitsRevGo_digits (fuel : ℕ) :
    ∀ n, n < fuel → ∀ c ∈ natDigitsRevGo fuel n, c.isDigit = true := by
  induction fuel with
  | zero => intro n hn; omega
  | succ fuel ih =>
    intro n hn c hc
    unfold natDigitsRevGo at hc
    by_cases h10 : n < 10
    · rw [if_pos h10] at hc
      rw [List.mem_singleton.mp hc]
      exact digitChar_isDigit n h10
    · rw [if_neg h10] at hc
      rcases List.mem_cons.mp hc with h | h
      · rw [h]
        exact digitChar_isDigit (n % 10) (Nat.mod_lt n (by omega))
      · have hdiv : n / 10 < fuel := by
          have h1 : n / 10 < n := Nat.div_lt_self (by omega) (by omega)
          omega
        exact ih (n / 10) hdiv c h

theorem natDigitsRevGo_ne_nil (fuel n : ℕ) (h : n < fuel) :
    natDigitsRevGo fuel n ≠ [] := by
  cases fuel with
  | zero => omega
  | succ fuel =>
    unfold natDigitsRevGo
    by_cases h10 : n < 10
    · rw [if_pos h10]; simp
    · rw [if_neg h10]; simp

theorem digitsToNat_append (a : JStr) (c : Char) :
    digitsToNat (a ++ [c]) = 10 * digitsToNat a + (c.toNat - 48) := by
  unfold digitsToNat
  rw [List.foldl_append]
  rfl

theorem natDigitsRevGo_val (fuel : ℕ) :
    ∀ n, n < fuel → digitsToNat (natDigitsRevGo fuel n).reverse = n := by
  induction fuel with
  | zero => intro n hn; omega
  | succ fuel ih =>
    intro n hn
    unfold natDigitsRevGo
    by_cases h10 : n < 10
    · rw [if_pos h10]
      show digitsToNat [digitChar n] = n
      unfold digitsToNat
      simp [digitChar_toNat n h10]
    · rw [if_neg h10]
      rw [List.reverse_cons, digitsToNat_append]
      have hdiv : n / 10 < fuel := by
        have h1 : n / 10 < n := Nat.div_lt_self (by omega) (by omega)
        omega
      rw [ih (n / 10) hdiv, digitChar_toNat (n % 10) (Nat.mod_lt n (by omega))]
      omega

theorem natToStr_digits (n : ℕ) : ∀ c ∈ natToStr n, c.isDigit = true := by
  intro c hc
  unfold natToStr at hc
  exact natDigitsRevGo_digits (n + 1) n (Nat.lt_succ_self n) c
    (List.mem_reverse.mp hc)

theorem colon_not_mem_natToStr (n : ℕ) : ':' ∉ natToStr n := by
  intro h
  have := natToStr_digits n ':' h
  simp at this

theorem natToStr_ne_nil (n : ℕ) : natToStr n ≠ [] := by
  unfold natToStr
  intro h
  exact natDigitsRevGo_ne_nil (n + 1) n (Nat.lt_succ_self n)
    (by simpa using congrArg List.reverse h)

theorem takeWhile_eq_self_of_all {p : Char → Bool} (l : JStr)
    (h : ∀ c ∈ l, p c = true) : l.takeWhile p = l := by
  induction l with
  | nil => rfl
  | cons x xs ih =>
    rw [List.takeWhile_cons, h x (List.mem_cons_self x xs)]
    rw [ih (fun c hc => h c (List.mem_cons_of_mem x hc))]
    rw [if_pos rfl]

theorem jsParseInt_natToStr (n : ℕ) : jsParseInt (natToStr n) = some n := by
  unfold jsParseInt
  rw [takeWhile_eq_self_of_all (natToStr n) (natToStr_digits n)]
  rw [if_neg (natToStr_ne_nil n)]
  unfold natToStr
  rw [natDigitsRevGo_val (n + 1) n (Nat.lt_succ_self n)]

-- ======================== claim C6 ========================

/-- Concrete models manifest used to instantiate the C6 theorem. -/
def c6Models : List Model := [⟨3, js "F"⟩]

/-- C6: when the originating model is loaded under the same filename and
the manifest maps that filename to the element's session index, the
stable-key round trip `key → toStableKey → fromStableKey` returns the
original composite key. -/
theorem c6_stable_key_round_trip (models : List Model) (i : ℕ) (F eid : JStr)
    (m0 m1 : Model)
    (h0 : models.find? (fun m => m.idx == i) = some m0) (h0f : m0.filename = F)
    (h1 : models.find? (fun m => m.filename == F) = some m1) (h1i : m1.idx = i)
    (heid : ':' ∉ eid) :
    (toStableKey models (natToStr i ++ ':' :: eid)).bind (fromStableKey models)
      = some (natToStr i ++ ':' :: eid) := by
  have hsplit : splitOnChar ':' (natToStr i ++ ':' :: eid) = [natToStr i, eid] :=
    splitOnChar_two ':' _ _ (colon_not_mem_natToStr i) heid
  unfold toStableKey
  rw [hsplit]
  simp only [List.headD_cons, List.get?_cons_succ, List.get?_cons_zero,
    Option.getD_some]
  rw [jsParseInt_natToStr i]
  dsimp only
  rw [h0]
  rw [Option.some_bind]
  unfold fromStableKey
  rw [h0f, splitAtLastColon_append F eid heid]
  dsimp only
  rw [h1]
  dsimp only
  rw [h1i]

/-- Witness for C6 at filename `F`, native id 42, session index 3. -/
theorem c6_stable_key_round_trip_witness :
    (toStableKey c6Models (natToStr 3 ++ ':' :: js "42")).bind
        (fromStableKey c6Models)
      = some (natToStr 3 ++ ':' :: js "42") :=
  c6_stable_key_round_trip c6Models 3 (js "F") (js "42") ⟨3, js "F"⟩ ⟨3, js "F"⟩
    (by decide) (by decide) (by decide) (by decide) (by decide)

-- ======================== claim C9 ========================

theorem mget?_mset_isSome {V : Type} (j k : JStr) (v : V)
    (m : List (JStr × V)) :
    (mget? j (mset k v m)).isSome = true ↔
      j = k ∨ (mget? j m).isSome = true := by
  by_cases h : j = k
  · subst h
    rw [mget?_mset_self]
    simp
  · rw [mget?_mset_ne _ _ _ _ h]
    simp [h]

/-- Every stable key produced by `toStableKey` is a loaded filename
followed by a colon and a colon-free tail. -/
theorem toStableKey_shape (models : List Model) (ck sk : JStr)
    (h : toStableKey models ck = some sk) :
    ∃ m ∈ models, ∃ eid, ':' ∉ eid ∧ sk = m.filename ++ ':' :: eid := by
  unfold toStableKey at h
  dsimp only at h
  cases hp : jsParseInt ((splitOnChar ':' ck).headD []) with
  | none => rw [hp] at h; cases h
  | some modelIdx =>
    rw [hp] at h
    dsimp only at h
    cases hf : models.find? (fun m => m.idx == modelIdx) with
    | none => rw [hf] at h; cases h
    | some m =>
      rw [hf] at h
      dsimp only at h
      injection h with h
      refine ⟨m, List.mem_of_find?_eq_some hf,
        ((splitOnChar ':' ck).get? 1).getD (js "undefined"), ?_, h.symm⟩
      cases hg : (splitOnChar ':' ck).get? 1 with
      | none => decide
      | some piece =>
        simpa using splitOnChar_pieces ':' ck piece (List.get?_mem hg)

/-- Every entry of the store written by `saveOverrides` originates from an
in-memory override whose composite key resolves to the entry's stable
key. -/
theorem saveStore_entry (models : List Model) (ov : List (JStr × JStr))
    (p : JStr × JStr) (hp : p ∈ saveOverridesStore models ov) :
    ∃ ck code, (ck, code) ∈ ov ∧ toStableKey models ck = some p.1
      ∧ p.2 = code := by
  unfold saveOverridesStore at hp
  suffices hgen : ∀ acc : List (JStr × JStr),
      p ∈ ov.foldl
        (fun data q =>
          match toStableKey models q.1 with
          | some sk => mset sk q.2 data
          | none => data)
        acc →
      p ∈ acc ∨ ∃ ck code, (ck, code) ∈ ov ∧ toStableKey models ck = some p.1
        ∧ p.2 = code by
    rcases hgen [] hp with h | h
    · cases h
    · exact h
  clear hp
  induction ov with
  | nil => intro acc hp; exact Or.inl hp
  | cons e t ih =>
    intro acc hp
    rw [List.foldl_cons] at hp
    rcases ih _ hp with h | h
    · cases hts : toStableKey models e.1 with
      | none => rw [hts] at h; exact Or.inl h
      | some sk =>
        rw [hts] at h
        rcases mem_mset p sk e.2 acc h with h1 | h1
        · refine Or.inr ⟨e.1, e.2, List.mem_cons_self e t, ?_, ?_⟩
          · rw [hts, h1]
          · rw [h1]
        · exact Or.inl h1
    · obtain ⟨ck, code, hmem, hts, hcode⟩ := h
      exact Or.inr ⟨ck, code, List.mem_cons_of_mem e hmem, hts, hcode⟩

theorem saveStore_dom_mono (models : List Model) (ov : List (JStr × JStr))
    (sk : JStr) :
    ∀ acc : List (JStr × JStr), (mget? sk acc).isSome = true →
      (mget? sk (ov.foldl
        (fun data q =>
          match toStableKey models q.1 with
          | some sk' => mset sk' q.2 data
          | none => data)
        acc)).isSome = true := by
  induction ov with
  | nil => intro acc h; exact h
  | cons e t ih =>
    intro acc h
    rw [List.foldl_cons]
    refine ih _ ?_
    cases hts : toStableKey models e.1 with
    | none => exact h
    | some sk' =>
      dsimp only
      rw [mget?_mset_isSome]
      exact Or.inr h

/-- The store written by `saveOverrides` holds exactly the stable keys of
the in-memory overrides that resolve against the loaded models. -/
theorem saveStore_dom (models : List Model) (ov : List (JStr × JStr))
    (sk : JStr) :
    (mget? sk (saveOverridesStore models ov)).isSome = true ↔
      ∃ p ∈ ov, toStableKey models p.1 = some sk := by
  constructor
  · intro h
    cases hg : mget? sk (saveOverridesStore models ov) with
    | none => rw [hg] at h; cases h
    | some v =>
      obtain ⟨ck, code, hmem, hts, _⟩ :=
        saveStore_entry models ov (sk, v) (mem_of_mget? hg)
      exact ⟨(ck, code), hmem, hts⟩
  · intro ⟨p, hmem, hts⟩
    unfold saveOverridesStore
    suffices hgen : ∀ (l : List (JStr × JStr)) (acc : List (JStr × JStr)),
        p ∈ l →
        (mget? sk (l.foldl
          (fun data q =>
            match toStableKey models q.1 with
            | some sk' => mset sk' q.2 data
            | none => data)
          acc)).isSome = true from hgen ov [] hmem
    intro l
    induction l with
    | nil => intro acc h; cases h
    | cons e t ih =>
      intro acc hmem'
      rw [List.foldl_cons]
      rcases List.mem_cons.mp hmem' with h | h
      · subst h
        rw [hts]
        refine saveStore_dom_mono models t sk _ ?_
        rw [mget?_mset_isSome]
        exact Or.inl rfl
      · exact ih _ h

/-- Concrete models manifest used to instantiate the C9 theorem. -/
def c9Models : List Model := [⟨0, js "G.ifc"⟩]

/-- Concrete previously-persisted store used to instantiate the C9
theorem; the first entry's filename is not loaded. -/
def c9Store : List (JStr × JStr) :=
  [(js "F.ifc:7", js "B2030"), (js "G.ifc:9", js "B2010")]

/-- C9: `saveOverrides` writes exactly the stable keys of the in-memory
overrides that resolve against the loaded models; after a `loadOverrides`
of a previous store, a persisted override whose filename is not among the
loaded models is absent from the next written store. -/
theorem c9_save_drops_unresolvable (models : List Model)
    (stored : List (JStr × JStr)) (F eid : JStr) (heid : ':' ∉ eid)
    (hF : ∀ m ∈ models, m.filename ≠ F) :
    (∀ sk,
      (mget? sk (saveOverridesStore models
          (loadOverridesMap models stored []))).isSome = true ↔
        ∃ p ∈ loadOverridesMap models stored [],
          toStableKey models p.1 = some sk)
    ∧ mget? (F ++ ':' :: eid)
        (saveOverridesStore models (loadOverridesMap models stored [])) =
      none := by
  refine ⟨fun sk => saveStore_dom models _ sk, ?_⟩
  cases hg : mget? (F ++ ':' :: eid)
      (saveOverridesStore models (loadOverridesMap models stored [])) with
  | none => rfl
  | some v =>
    exfalso
    obtain ⟨ck, code, _, hts, _⟩ :=
      saveStore_entry models _ _ (mem_of_mget? hg)
    obtain ⟨m, hm, eid', heid', hshape⟩ := toStableKey_shape models ck _ hts
    obtain ⟨hfn, _⟩ :=
      lastColon_decomp_unique m.filename eid' F eid heid' heid hshape.symm
    exact hF m hm (hfn ▸ rfl)

/-- Witness for C9: an override persisted for the unloaded file `F.ifc`
is not present in the store written after reloading against `G.ifc`. -/
theorem c9_save_drops_unresolvable_witness :
    mget? (js "F.ifc" ++ ':' :: js "7")
        (saveOverridesStore c9Models (loadOverridesMap c9Models c9Store [])) =
      none :=
  (c9_save_drops_unresolvable c9Models c9Store (js "F.ifc") (js "7")
    (by decide) (by decide)).2

-- ======================== quantity candidate characterization ========================

/-- Field projection of the candidate structure by category. -/
def Cands.get (c : Cands) : QCat → List (ℚ × Bool)
  | .area => c.area
  | .volume => c.volume
  | .length => c.length
  | .count => c.count

/-- Category projection of an extraction result. -/
def Quantities.get (q : Quantities) : QCat → ℚ
  | .area => q.area
  | .volume => q.volume
  | .length => q.length
  | .count => q.count

/-- Whether the whole lower-cased property key contains `gross` — the
test `extractQuantities` actually performs. -/
def isGrossKey (key : JStr) : Bool :=
  strContains (toLowerList key) (js "gross")

/-- The lower-cased last dot-segment of a property key — the `name` that
`classifyQuantityKey` actually matches keywords against. -/
def lastSegLower (key : JStr) : JStr :=
  ((splitOnChar '.' (toLowerList key)).getLast?).getD []

/-- The candidates of one category as a two-pass filter over the property
bag: the pairs whose key classifies to the category and whose value is a
positive number, in bag order. -/
def catCandidates (props : List (JStr × JsVal)) (cat : QCat) :
    List (JStr × ℚ) :=
  props.filterMap (fun kv =>
    match kv.2 with
    | .num v =>
      if classifyQuantityKey kv.1 = some cat ∧ 0 < v then some (kv.1, v)
      else none
    | _ => none)

theorem Cands_push_get_same (c : Cands) (cat : QCat) (e : ℚ × Bool) :
    (c.push cat e).get cat = c.get cat ++ [e] := by
  cases cat <;> rfl

theorem Cands_push_get_other (c : Cands) (cat cat' : QCat) (e : ℚ × Bool)
    (h : cat' ≠ cat) : (c.push cat' e).get cat = c.get cat := by
  cases cat <;> cases cat' <;> first | rfl | exact absurd rfl h

theorem collectCands_get (props : List (JStr × JsVal)) (cat : QCat) :
    (collectCands props).get cat =
      (catCandidates props cat).map (fun p => (p.2, isGrossKey p.1)) := by
  unfold collectCands
  suffices hgen : ∀ c0 : Cands,
      ((props.foldl
        (fun c kv =>
          match classifyQuantityKey kv.1 with
          | some cat =>
            match kv.2 with
            | .num v =>
              if 0 < v then
                c.push cat (v, strContains (toLowerList kv.1) (js "gross"))
              else c
            | _ => c
          | none => c)
        c0).get cat) =
      c0.get cat ++ (catCandidates props cat).map (fun p => (p.2, isGrossKey p.1)) by
    have h := hgen ⟨[], [], [], []⟩
    rw [h]
    have hnil : (Cands.get ⟨[], [], [], []⟩ cat) = [] := by cases cat <;> rfl
    rw [hnil, List.nil_append]
  induction props with
  | nil =>
    intro c0
    simp [catCandidates]
  | cons kv t ih =>
    intro c0
    rw [List.foldl_cons]
    rw [ih]
    unfold catCandidates
    rw [List.filterMap_cons]
    cases hck : classifyQuantityKey kv.1 with
    | none =>
      cases hv : kv.2 with
      | num v =>
        dsimp only
        have hne : ¬((none : Option QCat) = some cat ∧ 0 < v) := by
          rintro ⟨h, _⟩; cases h
        rw [if_neg hne]
      | str s => rfl
      | boolean b => rfl
    | some cat' =>
      cases hv : kv.2 with
      | num v =>
        dsimp only
        by_cases hpos : 0 < v
        · rw [if_pos hpos]
          by_cases hcat : cat' = cat
          · subst hcat
            rw [if_pos ⟨rfl, hpos⟩]
            dsimp only
            rw [List.map_cons, Cands_push_get_same]
            rw [List.append_assoc]
            rfl
          · have hne : ¬(some cat' = some cat ∧ 0 < v) :=
              fun hh => hcat (Option.some.inj hh.1)
            rw [if_neg hne, Cands_push_get_other c0 cat cat' _ hcat]
        · rw [if_neg hpos]
          have hne : ¬(some cat' = some cat ∧ 0 < v) := fun hh => hpos hh.2
          rw [if_neg hne]
      | str s => rfl
      | boolean b => rfl

theorem extractQuantities_get (props : List (JStr × JsVal)) (cat : QCat) :
    (extractQuantities props).get cat = pickVal ((collectCands props).get cat) := by
  cases cat <;> rfl

theorem pickVal_map (l : List (JStr × ℚ)) :
    pickVal (l.map (fun p => (p.2, isGrossKey p.1))) =
      if l = [] then 0
      else if l.filter (fun p => isGrossKey p.1) ≠ [] then
        jsMaxList ((l.filter (fun p => isGrossKey p.1)).map (fun p => p.2))
      else jsMaxList (l.map (fun p => p.2)) := by
  unfold pickVal
  by_cases hl : l = []
  · simp [hl]
  · rw [if_neg (by simpa using hl), if_neg hl]
    have hfilter : (l.map (fun p => (p.2, isGrossKey p.1))).filter
        (fun v => v.2) =
        (l.filter (fun p => isGrossKey p.1)).map
          (fun p => (p.2, isGrossKey p.1)) := by
      rw [List.filter_map]
      rfl
    rw [hfilter]
    by_cases hg : l.filter (fun p => isGrossKey p.1) = []
    · rw [hg]
      rw [if_neg (by simp), if_neg (by simpa using hg)]
      rw [List.map_map]
      rfl
    · rw [if_pos (by simpa using hg), if_pos (by simpa using hg)]
      rw [List.map_map]
      rfl

-- ======================== claim C4 ========================

/-- The property bag of the C4 counterexample: the set-name of the first
key contains `gross` while neither property-name does. -/
def c4CexProps : List (JStr × JsVal) :=
  [(js "GrossStuff.Volume", JsVal.num 2),
   (js "BaseQuantities.Volume", JsVal.num 5)]

theorem c4CexCands : catCandidates c4CexProps QCat.volume =
    [(js "GrossStuff.Volume", 2), (js "BaseQuantities.Volume", 5)] := by
  unfold catCandidates c4CexProps
  rw [List.filterMap_cons]
  dsimp only
  rw [if_pos ⟨(by decide :
    classifyQuantityKey (js "GrossStuff.Volume") = some QCat.volume),
    (by norm_num : (0 : ℚ) < 2)⟩]
  rw [List.filterMap_cons]
  dsimp only
  rw [if_pos ⟨(by decide :
    classifyQuantityKey (js "BaseQuantities.Volume") = some QCat.volume),
    (by norm_num : (0 : ℚ) < 5)⟩]
  rw [List.filterMap_nil]

/-- Counterexample to C4 as stated: in this bag no candidate's
property-name (last dot-segment) contains `gross`, so the claimed rule
returns the maximum among all volume candidates, 5; the code instead
treats the `GrossStuff.Volume` entry as gross (the whole lower-cased key
is tested, set-name included) and returns 2. -/
theorem c4_counterexample :
    (extractQuantities c4CexProps).volume = 2
    ∧ (∀ p ∈ catCandidates c4CexProps QCat.volume,
        strContains (lastSegLower p.1) (js "gross") = false)
    ∧ jsMaxList ((catCandidates c4CexProps QCat.volume).map (fun p => p.2)) = 5
    ∧ (2 : ℚ) ≠ 5 := by
  refine ⟨?_, ?_, ?_, by norm_num⟩
  · show pickVal (collectCands c4CexProps).volume = 2
    have hc : (collectCands c4CexProps).volume = [(2, true), (5, false)] := by
      show (collectCands c4CexProps).get .volume = _
      rw [collectCands_get, c4CexCands]
      rw [List.map_cons, List.map_cons, List.map_nil]
      dsimp only
      rw [show isGrossKey (js "GrossStuff.Volume") = true from by decide]
      rw [show isGrossKey (js "BaseQuantities.Volume") = false from by decide]
    rw [hc]
    norm_num [pickVal, jsMaxList, List.cons_ne_nil]
  · intro p hp
    rw [c4CexCands] at hp
    rcases List.mem_cons.mp hp with h | h
    · rw [h]; decide
    · rcases List.mem_cons.mp h with h1 | h1
      · rw [h1]; decide
      · cases h1
  · rw [c4CexCands]
    rw [List.map_cons, List.map_cons, List.map_nil]
    norm_num [jsMaxList]

/-- C4 amended: for every property bag and category, `extractQuantities`
returns the maximum among the candidates whose whole lower-cased key
contains `gross` when at least one exists, and otherwise the maximum
among all candidates of the category; the `NetVolume`/`GrossVolume`
scenario still extracts 3.0 and aggregates 3.0 × 1.30795 in the CY
column. -/
theorem c4_gross_preference_amended :
    (∀ (props : List (JStr × JsVal)) (cat : QCat),
      (extractQuantities props).get cat =
        if catCandidates props cat = [] then 0
        else if (catCandidates props cat).filter (fun p => isGrossKey p.1) ≠ [] then
          jsMaxList (((catCandidates props cat).filter
            (fun p => isGrossKey p.1)).map (fun p => p.2))
        else jsMaxList ((catCandidates props cat).map (fun p => p.2)))
    ∧ (extractQuantities [(js "BaseQuantities.NetVolume", JsVal.num 2.5),
        (js "BaseQuantities.GrossVolume", JsVal.num 3)]).volume = 3
    ∧ (aggregateSpatial [(js "0:1",
        ⟨js "IFCWALL", js "Wall", js "Level 1",
         [(js "BaseQuantities.NetVolume", JsVal.num 2.5),
          (js "BaseQuantities.GrossVolume", JsVal.num 3)]⟩)]).totals.cy
      = 3 * M3_TO_CY := by
  refine ⟨?_, ?_, ?_⟩
  · intro props cat
    rw [extractQuantities_get, collectCands_get, pickVal_map]
  · have h1 : classifyQuantityKey (js "BaseQuantities.NetVolume") =
        some .volume := by decide
    have h2 : classifyQuantityKey (js "BaseQuantities.GrossVolume") =
        some .volume := by decide
    have h3 : strContains (toLowerList (js "BaseQuantities.NetVolume"))
        (js "gross") = false := by decide
    have h4 : strContains (toLowerList (js "BaseQuantities.GrossVolume"))
        (js "gross") = true := by decide
    norm_num [extractQuantities, collectCands, pickVal, jsMaxList, Cands.push,
      h1, h2, h3, h4, List.cons_ne_nil]
  · have hv : (extractQuantities [(js "BaseQuantities.NetVolume", JsVal.num 2.5),
        (js "BaseQuantities.GrossVolume", JsVal.num 3)]).volume = 3 := by
      have h1 : classifyQuantityKey (js "BaseQuantities.NetVolume") =
          some .volume := by decide
      have h2 : classifyQuantityKey (js "BaseQuantities.GrossVolume") =
          some .volume := by decide
      have h3 : strContains (toLowerList (js "BaseQuantities.NetVolume"))
          (js "gross") = false := by decide
      have h4 : strContains (toLowerList (js "BaseQuantities.GrossVolume"))
          (js "gross") = true := by decide
      norm_num [extractQuantities, collectCands, pickVal, jsMaxList, Cands.push,
        h1, h2, h3, h4, List.cons_ne_nil]
    show ((aggregateSpatial _).totals).cy = 3 * M3_TO_CY
    rw [show (aggregateSpatial [(js "0:1",
        ⟨js "IFCWALL", js "Wall", js "Level 1",
         [(js "BaseQuantities.NetVolume", JsVal.num 2.5),
          (js "BaseQuantities.GrossVolume", JsVal.num 3)]⟩)]).totals =
      addToAgg emptyAgg (extractQuantities
        [(js "BaseQuantities.NetVolume", JsVal.num 2.5),
         (js "BaseQuantities.GrossVolume", JsVal.num 3)]) (js "0:1") from rfl]
    rw [show ∀ a q k, (addToAgg a q k).cy = a.cy + q.volume * M3_TO_CY
      from fun a q k => rfl]
    rw [hv]
    show (0 : ℚ) + 3 * M3_TO_CY = 3 * M3_TO_CY
    rw [zero_add]

-- ======================== claim C5 ========================

/-- Everything after the first `'.'` of a string (the "remainder" reading
of the spec's set-name/property-name split). -/
def afterFirstDot : JStr → JStr
  | [] => []
  | c :: t => if c = '.' then t else afterFirstDot t

/-- Modelled from the spec: the candidate-acceptance rule as the claim
states it — split the key at the first `'.'` into a set-name prefix and
a property-name remainder; accept when (a) the set-name matches a known
quantity-container prefix case-insensitively, or (b) the property-name
contains a dimension keyword and the value is a positive number.  Written
for comparison with `classifyQuantityKey`, which is what the code runs. -/
def specIsQuantityCandidate (key : JStr) (v : JsVal) : Bool :=
  let lower := toLowerList key
  let setName := (splitOnChar '.' lower).headD []
  let propName := afterFirstDot lower
  (QTO_SET_NAMES.any fun p => strStartsWith setName p)
  || ((QUANTITY_NAME_KEYWORDS.any fun kw => strContains propName kw)
      && (match v with | .num q => decide (0 < q) | _ => false))

/-- Counterexample to C5 as stated: `"BaseQuantities.Misc" = 5` satisfies
clause (a) of the claim (its set-name is a known quantity container), yet
the code classifies the key to no category, so the pair is rejected and
the whole bag extracts to all zeros. -/
theorem c5_counterexample :
    specIsQuantityCandidate (js "BaseQuantities.Misc") (JsVal.num 5) = true
    ∧ classifyQuantityKey (js "BaseQuantities.Misc") = none
    ∧ extractQuantities [(js "BaseQuantities.Misc", JsVal.num 5)] =
        ⟨0, 0, 0, 0⟩ :=
  ⟨by decide, by decide, rfl⟩

/-- C5 amended: a pair is accepted as a quantity candidate iff its value
is a positive number and the lower-cased last dot-segment of its key
contains a dimension keyword; the set-name clause admits nothing by
itself, because a key must match a category keyword to be classified.
The `"Dimensions.Area" = 12.0` scenario still extracts area 12.0. -/
theorem c5_candidate_amended :
    (∀ key : JStr, (classifyQuantityKey key).isSome =
      QUANTITY_NAME_KEYWORDS.any (fun kw => strContains (lastSegLower key) kw))
    ∧ (∀ (props : List (JStr × JsVal)) (cat : QCat) (key : JStr) (q : ℚ),
      (key, q) ∈ catCandidates props cat ↔
        (key, JsVal.num q) ∈ props ∧ classifyQuantityKey key = some cat ∧ 0 < q)
    ∧ (extractQuantities [(js "Dimensions.Area", JsVal.num 12)]).area = 12 := by
  refine ⟨?_, ?_, ?_⟩
  · intro key
    unfold classifyQuantityKey lastSegLower
    dsimp only
    simp only [QUANTITY_NAME_KEYWORDS, List.any_cons, List.any_nil,
      Bool.or_false]
    generalize (QTO_SET_NAMES.any fun p =>
      strStartsWith ((splitOnChar '.' (toLowerList key)).headD []) p) = bK
    generalize strContains (((splitOnChar '.' (toLowerList key)).getLast?).getD [])
      (js "area") = bA
    generalize strContains (((splitOnChar '.' (toLowerList key)).getLast?).getD [])
      (js "surface") = bS
    generalize strContains (((splitOnChar '.' (toLowerList key)).getLast?).getD [])
      (js "volume") = bV
    generalize strContains (((splitOnChar '.' (toLowerList key)).getLast?).getD [])
      (js "length") = bL
    generalize strContains (((splitOnChar '.' (toLowerList key)).getLast?).getD [])
      (js "height") = bH
    generalize strContains (((splitOnChar '.' (toLowerList key)).getLast?).getD [])
      (js "width") = bW
    generalize strContains (((splitOnChar '.' (toLowerList key)).getLast?).getD [])
      (js "depth") = bD
    generalize strContains (((splitOnChar '.' (toLowerList key)).getLast?).getD [])
      (js "perimeter") = bP
    generalize strContains (((splitOnChar '.' (toLowerList key)).getLast?).getD [])
      (js "thickness") = bT
    generalize strContains (((splitOnChar '.' (toLowerList key)).getLast?).getD [])
      (js "count") = bC
    revert bK bA bS bV bL bH bW bD bP bT bC
    decide
  · intro props cat key q
    unfold catCandidates
    rw [List.mem_filterMap]
    constructor
    · rintro ⟨kv, hkv, hf⟩
      cases hv : kv.2 with
      | num v =>
        rw [hv] at hf
        dsimp only at hf
        by_cases hc : classifyQuantityKey kv.1 = some cat ∧ 0 < v
        · rw [if_pos hc] at hf
          injection hf with hf
          rw [Prod.mk.injEq] at hf
          obtain ⟨hk, hq⟩ := hf
          refine ⟨?_, ?_, ?_⟩
          · rw [← hk, ← hq, ← hv]
            simpa using hkv
          · rw [← hk]
            exact hc.1
          · rw [← hq]
            exact hc.2
        · rw [if_neg hc] at hf
          cases hf
      | str s => rw [hv] at hf; cases hf
      | boolean b => rw [hv] at hf; cases hf
    · rintro ⟨hmem, hcls, hq⟩
      refine ⟨(key, JsVal.num q), hmem, ?_⟩
      dsimp only
      rw [if_pos ⟨hcls, hq⟩]
  · have h1 : classifyQuantityKey (js "Dimensions.Area") = some .area := by
      decide
    have h2 : strContains (toLowerList (js "Dimensions.Area")) (js "gross") =
        false := by decide
    norm_num [extractQuantities, collectCands, pickVal, jsMaxList, Cands.push,
      h1, h2, List.cons_ne_nil]
